import Mathlib

/-!
Seeder relay server: framing codec and broadcast channel

A shallow embedding of `src/network_query.hpp` (the 4-byte length-header
codec) and `src/seeder_server.cxx` (channel, session and their completion
handlers), followed by theorems about them.

Conventions of the embedding:
* a `char` is a `Nat` (its byte value), a buffer is a `List Nat`;
* `size_t` is a 64-bit unsigned integer; an `int` converted to `size_t` is
  reduced modulo `2 ^ 64`;
* the C library routines used by the codec (`strncat`, `atoi`, `sprintf`
  with `"%4d"`, `memcpy`) are modelled after the C standard;
* a `shared_ptr` to a session is a `Nat` (the address of the session); the
  heap of sessions is a function from addresses to session states;
* asynchronous operations are recorded in bookkeeping fields of the session
  (which read is outstanding, how many writes are outstanding, which
  messages a write was started for); a completion handler runs as one
  atomic step, as on the single thread of the `io_service`.
-/

namespace Seeder

/-! ## The message codec (`network_query.hpp`) -/

/-- The constant `header_length` of the enum in `network_query`. -/
abbrev header_length : Nat := 4

/-- The constant `max_body_length` of the enum in `network_query`. -/
abbrev max_body_length : Nat := 512

/-- The class `network_query`: the buffer `_data` (header then body) and the
field `_body_length`. -/
structure network_query where
  _data : List Nat
  _body_length : Nat
deriving DecidableEq

/-- The member `length()`: header length plus body length. -/
def network_query.length (q : network_query) : Nat :=
  header_length + q._body_length

/-- The member `body_length()` (the getter). -/
def network_query.body_length (q : network_query) : Nat :=
  q._body_length

/-- The member `body()`: the buffer from offset `header_length` on. -/
def network_query.body (q : network_query) : List Nat :=
  q._data.drop header_length

/-- The bytes of the frame that a write of `data()`, `length()` sends. -/
def network_query.frame (q : network_query) : List Nat :=
  q._data.take q.length

/-- The member `body_length(size_t new_length)` (the setter): stores the new
length and clamps it to `max_body_length`. -/
def network_query.set_body_length (new_length : Nat) (q : network_query) :
    network_query :=
  let q1 := { q with _body_length := new_length }
  if q1._body_length > max_body_length then
    { q1 with _body_length := max_body_length }
  else q1

/-- The C classification `isspace` in the "C" locale. -/
def isspace (c : Nat) : Bool :=
  c == 32 || (9 ≤ c && c ≤ 13)

/-- The C classification `isdigit`. -/
def isdigit (c : Nat) : Bool :=
  48 ≤ c && c ≤ 57

/-- Skips the leading white space of a C string, as `atoi` does. -/
def skip_space : List Nat → List Nat
  | [] => []
  | c :: cs => if isspace c then skip_space cs else c :: cs

/-- Accumulates the leading decimal digits of a C string, as `atoi` does,
stopping at the first character that is not a digit. -/
def parse_digits (acc : Nat) : List Nat → Nat
  | [] => acc
  | c :: cs => if isdigit c then parse_digits (acc * 10 + (c - 48)) cs else acc

/-- The C library `atoi` on a C string given without its terminating NUL:
white space, an optional sign, then decimal digits. The codec only calls it
on at most four characters, so the `int` result cannot overflow. -/
def atoi (s : List Nat) : Int :=
  match skip_space s with
  | 45 :: cs => - (parse_digits 0 cs : Int)
  | 43 :: cs => (parse_digits 0 cs : Int)
  | cs => (parse_digits 0 cs : Int)

/-- The C library `strncat`: appends to `dest` at most `n` characters of
`src`, stopping at a NUL. Strings are given without their terminating NUL. -/
def strncat (dest src : List Nat) (n : Nat) : List Nat :=
  dest ++ (src.take n).takeWhile (fun c => c != 0)

/-- The conversion of an `int` to `size_t` (64 bits): reduction modulo
`2 ^ 64`. -/
def size_t_of_int (v : Int) : Nat :=
  (v % (2 ^ 64 : Int)).toNat

/-- The member `decode_header()`: returns the `bool` result and the query
afterwards. -/
def network_query.decode_header (q : network_query) : Bool × network_query :=
  let header := strncat [] q._data header_length
  let q1 := { q with _body_length := size_t_of_int (atoi header) }
  if q1._body_length > max_body_length then
    (false, { q1 with _body_length := 0 })
  else
    (true, q1)

/-- The decimal digits of `n` in front of `acc`, most significant first, as
ASCII codes; `fuel` bounds the number of digits produced. -/
def decimal_aux : Nat → Nat → List Nat → List Nat
  | 0, _, acc => acc
  | fuel + 1, n, acc =>
    if n < 10 then (48 + n) :: acc
    else decimal_aux fuel (n / 10) ((48 + n % 10) :: acc)

/-- The decimal representation of `n` as ASCII codes (what `%d` prints for a
non-negative value); `n + 1` digits of fuel always suffice. -/
def decimal (n : Nat) : List Nat :=
  decimal_aux (n + 1) n []

/-- The C library `sprintf` with the format `"%4d"`: the decimal digits,
padded on the left with spaces to a width of at least four. The argument is
`_body_length`, which never exceeds 512 in a constructed query. -/
def sprintf_4d (n : Nat) : List Nat :=
  List.replicate (4 - (decimal n).length) 32 ++ decimal n

/-- The C library `memcpy` of the first `n` bytes of `src` over the start of
`dst`. -/
def memcpy (dst src : List Nat) (n : Nat) : List Nat :=
  src.take n ++ dst.drop n

/-- The member `encode_header()`. -/
def network_query.encode_header (q : network_query) : network_query :=
  let header := sprintf_4d q._body_length
  { q with _data := memcpy q._data header header_length }

/-! ## Sessions and the channel (`seeder_server.cxx`) -/

/-- The constant `max_recent_queries` of the enum in `network_channel`. -/
abbrev max_recent_queries : Nat := 100

/-- The size of the buffer `_data`: `header_length + max_body_length`. -/
abbrev data_size : Nat := header_length + max_body_length

/-- An outstanding `async_read` of a session: for the four header bytes, or
for a body of the given number of bytes. -/
inductive read_op where
  | header : read_op
  | body : Nat → read_op
deriving DecidableEq

/-- The class `network_session`: the members `_read_query` and
`_write_queries` (front of the deque first), and the bookkeeping of its
asynchronous operations: whether `start()` has run, the outstanding read,
the number of writes started and not yet completed, and the messages for
which an `async_write` was started, in order. -/
structure network_session where
  _read_query : network_query
  _write_queries : List network_query
  started : Bool
  read_pending : Option read_op
  writes_in_flight : Nat
  writes_started : List network_query

/-- The class `network_channel`: the set `_participants` (session addresses
in increasing order, as a `std::set` iterates), the deque `_recent_queries`
(oldest first), and a log of every message passed to `deliver`. -/
structure network_channel where
  _participants : List Nat
  _recent_queries : List network_query
  deliver_log : List network_query

/-- The state of one `seeder_server`: its member `_channel` and the sessions
it has created, by address. -/
structure seeder_server where
  _channel : network_channel
  sessions : Nat → network_session

/-- Replaces the state of the session at address `self`. -/
def seeder_server.set_session (self : Nat) (s : network_session)
    (w : seeder_server) : seeder_server :=
  { w with sessions := Function.update w.sessions self s }

/-- The call `std::set::insert`: no effect when the key is present. -/
def set_insert (p : Nat) (l : List Nat) : List Nat :=
  if p ∈ l then l else List.orderedInsert (fun a b => a ≤ b) p l

/-- The call `std::set::erase` by key: removes the elements equal to the
key. -/
def set_erase (p : Nat) (l : List Nat) : List Nat :=
  l.filter (fun x => x != p)

/-- The loop `while (size() > max_recent_queries) pop_front()`. -/
def evict : List network_query → List network_query
  | [] => []
  | q :: qs =>
    if (q :: qs).length > max_recent_queries then evict qs else q :: qs

/-- The call `async_write` on the front of `_write_queries`: records the
message and one more outstanding write. Both callers have a non-empty
queue. -/
def async_write_front (s : network_session) : network_session :=
  match s._write_queries with
  | [] => s
  | q :: _ =>
    { s with writes_started := s.writes_started ++ [q],
             writes_in_flight := s.writes_in_flight + 1 }

/-- The member `network_session::deliver`, on the session's own state. -/
def network_session.deliver (query : network_query) (s : network_session) :
    network_session :=
  let write_in_progress := !s._write_queries.isEmpty
  let s1 := { s with _write_queries := s._write_queries ++ [query] }
  if !write_in_progress then async_write_front s1 else s1

/-- The virtual call `participant->deliver(query)` through a
`network_participant_ptr`; sessions are the only participants. -/
def network_participant.deliver (participant : Nat) (query : network_query)
    (w : seeder_server) : seeder_server :=
  w.set_session participant ((w.sessions participant).deliver query)

/-- The member `network_channel::join`. -/
def network_channel.join (participant : Nat) (w : seeder_server) :
    seeder_server :=
  let w1 := { w with _channel := { w._channel with
    _participants := set_insert participant w._channel._participants } }
  w1._channel._recent_queries.foldl
    (fun v q => network_participant.deliver participant q v) w1

/-- The member `network_channel::leave`. -/
def network_channel.leave (participant : Nat) (w : seeder_server) :
    seeder_server :=
  { w with _channel := { w._channel with
    _participants := set_erase participant w._channel._participants } }

/-- The member `network_channel::deliver`. -/
def network_channel.deliver (query : network_query) (w : seeder_server) :
    seeder_server :=
  let w1 := { w with _channel := { w._channel with
    _recent_queries := evict (w._channel._recent_queries ++ [query]),
    deliver_log := w._channel.deliver_log ++ [query] } }
  w1._channel._participants.foldl
    (fun v p => network_participant.deliver p query v) w1

/-- The call `async_read` of a session: records the outstanding read. -/
def async_read (self : Nat) (op : read_op) (w : seeder_server) :
    seeder_server :=
  w.set_session self { w.sessions self with read_pending := some op }

/-- The member `network_session::start`. -/
def network_session.start (self : Nat) (w : seeder_server) : seeder_server :=
  let w1 := w.set_session self { w.sessions self with started := true }
  async_read self read_op.header (network_channel.join self w1)

/-- The member `network_session::handle_read_header`; `decode_header()` is
only evaluated when there is no error. -/
def network_session.handle_read_header (error : Bool) (self : Nat)
    (w : seeder_server) : seeder_server :=
  if error then network_channel.leave self w
  else
    let r := (w.sessions self)._read_query.decode_header
    let w1 := w.set_session self { w.sessions self with _read_query := r.2 }
    if r.1 then async_read self (read_op.body r.2.body_length) w1
    else network_channel.leave self w1

/-- The member `network_session::handle_read_body`. -/
def network_session.handle_read_body (error : Bool) (self : Nat)
    (w : seeder_server) : seeder_server :=
  if !error then
    async_read self read_op.header
      (network_channel.deliver (w.sessions self)._read_query w)
  else network_channel.leave self w

/-- The success branch of `network_session::handle_write`, on the session's
own state: `pop_front`, then a write of the new front if there is one. -/
def network_session.write_next (s : network_session) : network_session :=
  let s1 := { s with _write_queries := s._write_queries.tail }
  if !s1._write_queries.isEmpty then async_write_front s1 else s1

/-- The member `network_session::handle_write`. -/
def network_session.handle_write (error : Bool) (self : Nat)
    (w : seeder_server) : seeder_server :=
  if !error then w.set_session self (w.sessions self).write_next
  else network_channel.leave self w

/-! ## Completions of asynchronous operations -/

/-- The bytes `bytes` stored into a buffer from offset `off` on. -/
def write_at (buf : List Nat) (off : Nat) (bytes : List Nat) : List Nat :=
  buf.take off ++ bytes ++ buf.drop (off + bytes.length)

/-- The end of a read of a session: the transferred bytes are in the buffer
of `_read_query` from offset `off` on and the read is no longer
outstanding. -/
def read_done (self : Nat) (off : Nat) (bytes : List Nat) (w : seeder_server) :
    seeder_server :=
  let s := w.sessions self
  w.set_session self { s with
    _read_query := { s._read_query with
      _data := write_at s._read_query._data off bytes },
    read_pending := none }

/-- The end of a write of a session: one write fewer is outstanding. -/
def write_done (self : Nat) (w : seeder_server) : seeder_server :=
  let s := w.sessions self
  w.set_session self { s with writes_in_flight := s.writes_in_flight - 1 }

/-- What the `io_service` can run next: `handle_accept` without error for a
session not yet started, the completion handler of an outstanding read (with
the bytes transferred), or the completion handler of an outstanding write. -/
inductive io_event where
  | accepted : Nat → io_event
  | read_completed : Nat → Bool → List Nat → io_event
  | write_completed : Nat → Bool → io_event

/-- The session an event belongs to. -/
def io_event.session : io_event → Nat
  | io_event.accepted self => self
  | io_event.read_completed self _ _ => self
  | io_event.write_completed self _ => self

/-- Runs one event; `none` when the event cannot occur in this state (no
such operation is outstanding, or a read reported as successful did not
transfer exactly the requested number of bytes). -/
def fire (w : seeder_server) : io_event → Option seeder_server
  | io_event.accepted self =>
    if (w.sessions self).started then none
    else some (network_session.start self w)
  | io_event.read_completed self error bytes =>
    match (w.sessions self).read_pending with
    | none => none
    | some read_op.header =>
      if bytes.length ≤ header_length ∧
          (error = false → bytes.length = header_length) then
        some (network_session.handle_read_header error self
          (read_done self 0 bytes w))
      else none
    | some (read_op.body n) =>
      if bytes.length ≤ n ∧ (error = false → bytes.length = n) then
        some (network_session.handle_read_body error self
          (read_done self header_length bytes w))
      else none
  | io_event.write_completed self error =>
    if 0 < (w.sessions self).writes_in_flight then
      some (network_session.handle_write error self (write_done self w))
    else none

/-- Runs a sequence of events in order. -/
def run (w : seeder_server) : List io_event → Option seeder_server
  | [] => some w
  | e :: es => (fire w e).bind (fun v => run v es)

/-- A session as constructed by `network_session(io_service, channel)`: the
buffer of `_read_query` is uninitialised (given), its body length is 0, the
write queue is empty and nothing is outstanding. -/
def network_session.fresh (buf : List Nat) : network_session :=
  { _read_query := { _data := buf, _body_length := 0 },
    _write_queries := [],
    started := false,
    read_pending := none,
    writes_in_flight := 0,
    writes_started := [] }

/-- The server after construction: an empty channel, no session started;
`mem` gives the uninitialised buffer contents of each session. -/
def seeder_server.initial (mem : Nat → List Nat) : seeder_server :=
  { _channel := { _participants := [], _recent_queries := [],
                  deliver_log := [] },
    sessions := fun i => network_session.fresh (mem i) }

/-- The states the server can be in: those reached from a constructed server
by running events. -/
inductive Reachable : seeder_server → Prop where
  | init (mem : Nat → List Nat) (h : ∀ i, (mem i).length = data_size) :
      Reachable (seeder_server.initial mem)
  | step {w v : seeder_server} (e : io_event) (hw : Reachable w)
      (he : fire w e = some v) : Reachable v

/-- The calls on one session's write side: `deliver` of a message, or a
write completing without error. -/
inductive write_event where
  | deliver : network_query → write_event
  | completed : write_event

/-- Runs one write-side call on a session; a completion can only occur while
a write is outstanding. -/
def write_step (s : network_session) : write_event → Option network_session
  | write_event.deliver q => some (s.deliver q)
  | write_event.completed =>
    if 0 < s.writes_in_flight then
      some ({ s with writes_in_flight := s.writes_in_flight - 1 }).write_next
    else none

/-- Runs a sequence of write-side calls on a session. -/
def write_run (s : network_session) : List write_event → Option network_session
  | [] => some s
  | e :: es => (write_step s e).bind (fun v => write_run v es)

/-- The messages passed to `deliver` in a sequence of write-side calls. -/
def delivered : List write_event → List network_query
  | [] => []
  | write_event.deliver q :: es => q :: delivered es
  | write_event.completed :: es => delivered es

/-- Whether running the event calls `network_channel::deliver`: it is the
completion without error of an outstanding body read (`handle_read_body`
with no error). -/
def delivers (w : seeder_server) : io_event → Bool
  | io_event.read_completed self false _ =>
    match (w.sessions self).read_pending with
    | some (read_op.body _) => true
    | _ => false
  | _ => false

/-- The facts kept by every event: the history is the last
`max_recent_queries` messages passed to `deliver`, the participant set has
no duplicates, and a session that has not been started is not a participant,
has no operation outstanding and has an empty write queue. -/
def server_inv (w : seeder_server) : Prop :=
  w._channel._recent_queries =
    w._channel.deliver_log.drop (w._channel.deliver_log.length - max_recent_queries) ∧
  w._channel._participants.Nodup ∧
  ∀ i, (w.sessions i).started = false →
    i ∉ w._channel._participants ∧ (w.sessions i).read_pending = none ∧
    (w.sessions i).writes_in_flight = 0 ∧ (w.sessions i)._write_queries = []

/-- The calls on one session's write side, failures included: `deliver` of a
message, or a write completing with the given error flag. -/
inductive write_call where
  | deliver : network_query → write_call
  | completed : Bool → write_call

/-- Runs one write-side call on a session; a completion can only occur while
a write is outstanding. On an error `handle_write` only calls
`_channel.leave`, which does not touch the session's own state. -/
def write_call_step (s : network_session) : write_call → Option network_session
  | write_call.deliver q => some (s.deliver q)
  | write_call.completed error =>
    if 0 < s.writes_in_flight then
      if !error then
        some ({ s with writes_in_flight := s.writes_in_flight - 1 }).write_next
      else some { s with writes_in_flight := s.writes_in_flight - 1 }
    else none

/-- Runs a sequence of write-side calls, failures included, on a session. -/
def write_call_run (s : network_session) : List write_call → Option network_session
  | [] => some s
  | e :: es => (write_call_step s e).bind (fun v => write_call_run v es)

/-- The calls on a `network_query` that touch its length: the setter
`body_length(n)`, `decode_header()`, `encode_header()`, and bytes stored into
its buffer (as a read does). -/
inductive codec_call where
  | body_length : Nat → codec_call
  | decode_header : codec_call
  | encode_header : codec_call
  | store : Nat → List Nat → codec_call

/-- Runs one call on a `network_query`. -/
def codec_step (q : network_query) : codec_call → network_query
  | codec_call.body_length n => q.set_body_length n
  | codec_call.decode_header => q.decode_header.2
  | codec_call.encode_header => q.encode_header
  | codec_call.store off bytes => { q with _data := write_at q._data off bytes }

/-- Runs a sequence of calls on a `network_query`. -/
def codec_run (q : network_query) : List codec_call → network_query
  | [] => q
  | c :: cs => codec_run (codec_step q c) cs

/-- A message as the server relays it: a full-size buffer, a body length of
at most `max_body_length`, and header bytes that `decode_header()` accepts
and parses to that body length. -/
def query_ok (m : network_query) : Prop :=
  m._data.length = data_size ∧ m._body_length ≤ max_body_length ∧
  m.decode_header = (true, m)

/-- The facts about one session kept by every event: the buffer of
`_read_query` has its full size, its body length is at most
`max_body_length`, an outstanding body read is for exactly that many bytes
of a decoded header, every queued or written message is `query_ok`, and at
most one write is outstanding, only with a non-empty queue. -/
def session_ok (s : network_session) : Prop :=
  s._read_query._data.length = data_size ∧
  s._read_query._body_length ≤ max_body_length ∧
  (∀ n, s.read_pending = some (read_op.body n) →
    n = s._read_query._body_length ∧
    s._read_query.decode_header = (true, s._read_query)) ∧
  (∀ m ∈ s._write_queries, query_ok m) ∧
  (∀ m ∈ s.writes_started, query_ok m) ∧
  s.writes_in_flight ≤ 1 ∧
  (s.writes_in_flight = 1 → s._write_queries ≠ [])

/-- The facts about messages and sessions kept by every event. -/
def server_ok (w : seeder_server) : Prop :=
  (∀ m ∈ w._channel._recent_queries, query_ok m) ∧ ∀ i, session_ok (w.sessions i)

/-! ## The codec: parsing and formatting a header -/

theorem skip_space_replicate (k : Nat) (l : List Nat) :
    skip_space (List.replicate k 32 ++ l) = skip_space l := by
  induction k with
  | zero => simp
  | succ k ih => simp [List.replicate_succ, skip_space, isspace, ih]

theorem parse_digits_map (ds : List Nat) (hd : ∀ d ∈ ds, d < 10) (acc : Nat) :
    parse_digits acc (ds.map (fun d => 48 + d)) =
      ds.foldl (fun a d => a * 10 + d) acc := by
  induction ds generalizing acc with
  | nil => simp [parse_digits]
  | cons d ds ih =>
    have h1 : d < 10 := hd d (by simp)
    have h2 : isdigit (48 + d) = true := by simp [isdigit]; omega
    simp only [List.map_cons, parse_digits, h2, if_true, List.foldl_cons]
    rw [ih (fun x hx => hd x (by simp [hx]))]
    simp

theorem foldl_digits (ds : List Nat) (acc : Nat) :
    ds.foldl (fun a d => a * 10 + d) acc =
      acc * 10 ^ ds.length + Nat.ofDigits 10 ds.reverse := by
  induction ds generalizing acc with
  | nil => simp
  | cons d ds ih =>
    simp only [List.foldl_cons, List.reverse_cons, List.length_cons]
    rw [ih, Nat.ofDigits_append]
    simp [Nat.ofDigits_singleton]
    ring

theorem foldl_digits_lt (ds : List Nat) (hd : ∀ d ∈ ds, d < 10) :
    ds.foldl (fun a d => a * 10 + d) 0 < 10 ^ ds.length := by
  rw [foldl_digits]
  simp only [zero_mul, zero_add]
  have := Nat.ofDigits_lt_base_pow_length (b := 10) (l := ds.reverse) (by norm_num)
    (fun x hx => hd x (by simpa using hx))
  simpa using this

theorem takeWhile_header (k : Nat) (ds : List Nat) :
    (List.replicate k 32 ++ ds.map (fun d => 48 + d)).takeWhile (fun c => c != 0) =
      List.replicate k 32 ++ ds.map (fun d => 48 + d) := by
  rw [List.takeWhile_eq_self_iff]
  intro c hc
  simp only [List.mem_append, List.mem_replicate, List.mem_map] at hc
  rcases hc with ⟨_, rfl⟩ | ⟨d, _, rfl⟩
  · decide
  · simp

theorem atoi_header (k : Nat) (ds : List Nat) (hne : ds ≠ [])
    (hd : ∀ d ∈ ds, d < 10) :
    atoi (List.replicate k 32 ++ ds.map (fun d => 48 + d)) =
      ((ds.foldl (fun a d => a * 10 + d) 0 : Nat) : Int) := by
  cases ds with
  | nil => exact absurd rfl hne
  | cons d ds =>
    have h1 : d < 10 := hd d (by simp)
    have h2 : isspace (48 + d) = false := by simp [isspace]; omega
    have h3 : skip_space (List.replicate k 32 ++ (d :: ds).map (fun d => 48 + d)) =
        (d :: ds).map (fun d => 48 + d) := by
      rw [skip_space_replicate]
      simp [skip_space, h2]
    unfold atoi
    rw [h3]
    have h4 := parse_digits_map (d :: ds) hd 0
    split
    · rename_i heq
      simp at heq
      omega
    · rename_i heq
      simp at heq
      omega
    · rw [h4]

theorem decode_header_of_header (q : network_query) (k : Nat) (ds : List Nat)
    (hk : k + ds.length = 4) (hne : ds ≠ []) (hd : ∀ d ∈ ds, d < 10)
    (hq : q._data.take 4 = List.replicate k 32 ++ ds.map (fun d => 48 + d)) :
    q.decode_header =
      if ds.foldl (fun a d => a * 10 + d) 0 ≤ 512 then
        (true, { q with _body_length := ds.foldl (fun a d => a * 10 + d) 0 })
      else (false, { q with _body_length := 0 }) := by
  have hlt := foldl_digits_lt ds hd
  have hlen : ds.length ≤ 4 := by omega
  have hlt2 : ds.foldl (fun a d => a * 10 + d) 0 < 10 ^ 4 :=
    lt_of_lt_of_le hlt (Nat.pow_le_pow_right (by norm_num) hlen)
  have hs : size_t_of_int ((ds.foldl (fun a d => a * 10 + d) 0 : Nat) : Int) =
      ds.foldl (fun a d => a * 10 + d) 0 := by
    unfold size_t_of_int
    omega
  unfold network_query.decode_header strncat
  simp only [header_length, List.nil_append, hq, takeWhile_header, atoi_header k ds hne hd, hs,
    max_body_length]
  by_cases h : ds.foldl (fun a d => a * 10 + d) 0 ≤ 512
  · simp [h, Nat.not_lt.mpr h]
  · simp [h, Nat.lt_of_not_le h]

theorem decimal_aux_small (fuel n : Nat) (acc : List Nat) (hn : n < 10) :
    decimal_aux (fuel + 1) n acc = (48 + n) :: acc := by
  simp [decimal_aux, hn]

theorem decimal_aux_large (fuel n : Nat) (acc : List Nat) (hn : 10 ≤ n) :
    decimal_aux (fuel + 1) n acc =
      decimal_aux fuel (n / 10) ((48 + n % 10) :: acc) := by
  simp [decimal_aux, Nat.not_lt.mpr hn]

theorem sprintf_4d_form (n : Nat) (hn : n < 10000) :
    ∃ k ds, k + ds.length = 4 ∧ ds ≠ [] ∧ (∀ d ∈ ds, d < 10) ∧
      sprintf_4d n = List.replicate k 32 ++ ds.map (fun d => 48 + d) ∧
      ds.foldl (fun a d => a * 10 + d) 0 = n := by
  by_cases h1 : n < 10
  · refine ⟨3, [n], rfl, by simp, by simpa using h1, ?_, by simp⟩
    simp [sprintf_4d, decimal, decimal_aux_small _ _ _ h1]
  by_cases h2 : n < 100
  · refine ⟨2, [n / 10, n % 10], rfl, by simp, ?_, ?_, ?_⟩
    · intro d hd
      simp at hd
      omega
    · obtain ⟨m, rfl⟩ : ∃ m, n = m + 1 := ⟨n - 1, by omega⟩
      have e : decimal (m + 1) = [48 + (m + 1) / 10, 48 + (m + 1) % 10] := by
        unfold decimal
        rw [decimal_aux_large _ _ _ (by omega), decimal_aux_small _ _ _ (by omega)]
      simp [sprintf_4d, e]
    · simp
      omega
  by_cases h3 : n < 1000
  · refine ⟨1, [n / 100, n / 10 % 10, n % 10], rfl, by simp, ?_, ?_, ?_⟩
    · intro d hd
      simp at hd
      omega
    · obtain ⟨m, rfl⟩ : ∃ m, n = m + 2 := ⟨n - 2, by omega⟩
      have e : decimal (m + 2) =
          [48 + (m + 2) / 100, 48 + (m + 2) / 10 % 10, 48 + (m + 2) % 10] := by
        unfold decimal
        rw [decimal_aux_large _ _ _ (by omega), decimal_aux_large _ _ _ (by omega),
          decimal_aux_small _ _ _ (by omega)]
        simp [Nat.div_div_eq_div_mul]
      simp [sprintf_4d, e]
    · simp
      omega
  · refine ⟨0, [n / 1000, n / 100 % 10, n / 10 % 10, n % 10], rfl, by simp, ?_, ?_, ?_⟩
    · intro d hd
      simp at hd
      omega
    · obtain ⟨m, rfl⟩ : ∃ m, n = m + 3 := ⟨n - 3, by omega⟩
      have e : decimal (m + 3) =
          [48 + (m + 3) / 1000, 48 + (m + 3) / 100 % 10, 48 + (m + 3) / 10 % 10,
            48 + (m + 3) % 10] := by
        unfold decimal
        rw [decimal_aux_large _ _ _ (by omega), decimal_aux_large _ _ _ (by omega),
          decimal_aux_large _ _ _ (by omega), decimal_aux_small _ _ _ (by omega)]
        simp [Nat.div_div_eq_div_mul]
      simp [sprintf_4d, e]
    · simp
      omega

theorem take_memcpy_header (dst hdr : List Nat) (h : hdr.length = 4) :
    (memcpy dst hdr header_length).take 4 = hdr := by
  unfold memcpy
  rw [List.take_of_length_le (le_of_eq h), List.take_append_eq_append_take,
    List.take_of_length_le (le_of_eq h), h]
  simp

theorem encode_decode_stored (q : network_query) (hq : q._body_length ≤ 512) :
    q.encode_header.decode_header = (true, q.encode_header) := by
  obtain ⟨k, ds, hk, hne, hd, hs, hv⟩ := sprintf_4d_form q._body_length (by omega)
  have hlen : (sprintf_4d q._body_length).length = 4 := by
    rw [hs]; simp; omega
  have ht : q.encode_header._data.take 4 =
      List.replicate k 32 ++ ds.map (fun d => 48 + d) := by
    rw [← hs]
    exact take_memcpy_header _ _ hlen
  rw [decode_header_of_header _ k ds hk hne hd ht, hv, if_pos hq]
  rfl

/-! ## The codec: round trip and range check -/

/-- C1: for every `n` with `0 ≤ n ≤ 512`, after `body_length(n)` and
`encode_header()`, `decode_header()` on the resulting header returns `true`
and leaves `body_length() == n`. -/
theorem C1_header_round_trip (q : network_query) (n : Nat) (h : n ≤ 512) :
    ((q.set_body_length n).encode_header).decode_header.1 = true ∧
    ((q.set_body_length n).encode_header).decode_header.2.body_length = n := by
  have hs : (q.set_body_length n)._body_length = n := by
    simp [network_query.set_body_length, Nat.not_lt.mpr h]
  rw [encode_decode_stored _ (by rw [hs]; exact h)]
  exact ⟨rfl, hs⟩

/-- Witness of C1 at `n = 5` on a zeroed buffer. -/
theorem C1_header_round_trip_witness :
    5 ≤ 512 ∧
    ((network_query.set_body_length 5
        ⟨List.replicate 516 0, 0⟩).encode_header).decode_header.1 = true ∧
    ((network_query.set_body_length 5
        ⟨List.replicate 516 0, 0⟩).encode_header).decode_header.2.body_length = 5 :=
  ⟨by decide, C1_header_round_trip ⟨List.replicate 516 0, 0⟩ 5 (by decide)⟩

/-- C2 as stated fails at `n = 513`: `body_length(513)` stores 512, the
header written is `" 512"`, and `decode_header()` returns `true`. -/
theorem C2_counterexample :
    513 > 512 ∧
    ((network_query.set_body_length 513
        ⟨List.replicate 516 0, 0⟩).encode_header).decode_header.1 = true ∧
    ((network_query.set_body_length 513
        ⟨List.replicate 516 0, 0⟩).encode_header).frame.take 4 = [32, 53, 49, 50] := by
  decide

/-- C2 (amended): for every `n > 512`, `body_length(n)` clamps the length to
512, so `encode_header()` followed by `decode_header()` returns `true` and
leaves `body_length() == 512`: no framing error is signalled. -/
theorem C2_clamped_round_trip (q : network_query) (n : Nat) (h : 512 < n) :
    ((q.set_body_length n).encode_header).decode_header.1 = true ∧
    ((q.set_body_length n).encode_header).decode_header.2.body_length = 512 := by
  have hs : (q.set_body_length n)._body_length = 512 := by
    simp [network_query.set_body_length, h]
  rw [encode_decode_stored _ (by rw [hs])]
  exact ⟨rfl, hs⟩

/-- Witness of the amended C2 at `n = 600`. -/
theorem C2_clamped_round_trip_witness :
    512 < 600 ∧
    ((network_query.set_body_length 600
        ⟨List.replicate 516 0, 0⟩).encode_header).decode_header.1 = true ∧
    ((network_query.set_body_length 600
        ⟨List.replicate 516 0, 0⟩).encode_header).decode_header.2.body_length = 512 :=
  ⟨by decide, C2_clamped_round_trip ⟨List.replicate 516 0, 0⟩ 600 (by decide)⟩

/-- C3: for every 4-byte header made of `k` leading spaces followed by the
decimal digits `ds` (at least one) denoting the value `v`, `decode_header()`
returns `true` with `body_length() == v` when `v ≤ 512`, and returns `false`
when `v > 512`. -/
theorem C3_decode_accepts_exactly_in_range (q : network_query) (k : Nat)
    (ds : List Nat) (hk : k + ds.length = 4) (hne : ds ≠ [])
    (hd : ∀ d ∈ ds, d < 10)
    (hq : q._data.take 4 = List.replicate k 32 ++ ds.map (fun d => 48 + d)) :
    Nat.ofDigits 10 ds.reverse ≤ 9999 ∧
    (Nat.ofDigits 10 ds.reverse ≤ 512 →
      q.decode_header.1 = true ∧
      q.decode_header.2.body_length = Nat.ofDigits 10 ds.reverse) ∧
    (512 < Nat.ofDigits 10 ds.reverse → q.decode_header.1 = false) := by
  have hv : ds.foldl (fun a d => a * 10 + d) 0 = Nat.ofDigits 10 ds.reverse := by
    rw [foldl_digits]; simp
  have hlt := foldl_digits_lt ds hd
  have hlt2 : ds.foldl (fun a d => a * 10 + d) 0 < 10 ^ 4 :=
    lt_of_lt_of_le hlt (Nat.pow_le_pow_right (by norm_num) (by omega))
  rw [decode_header_of_header q k ds hk hne hd hq, hv]
  rw [hv] at hlt2
  refine ⟨by omega, ?_, ?_⟩
  · intro h
    rw [if_pos h]
    exact ⟨rfl, rfl⟩
  · intro h
    rw [if_neg (Nat.not_le.mpr h)]

/-- Witness of C3 at the header `" 512"` (one space, digits 5, 1, 2). -/
theorem C3_decode_accepts_exactly_in_range_witness :
    (1 + [5, 1, 2].length = 4 ∧ [5, 1, 2] ≠ [] ∧ (∀ d ∈ [5, 1, 2], d < 10) ∧
      (network_query.mk ([32, 53, 49, 50] ++ List.replicate 512 0) 0)._data.take 4 =
        List.replicate 1 32 ++ [5, 1, 2].map (fun d => 48 + d)) ∧
    (Nat.ofDigits 10 [5, 1, 2].reverse ≤ 9999 ∧
    (Nat.ofDigits 10 [5, 1, 2].reverse ≤ 512 →
      (network_query.mk ([32, 53, 49, 50] ++ List.replicate 512 0) 0).decode_header.1 = true ∧
      (network_query.mk ([32, 53, 49, 50] ++ List.replicate 512 0) 0).decode_header.2.body_length
        = Nat.ofDigits 10 [5, 1, 2].reverse) ∧
    (512 < Nat.ofDigits 10 [5, 1, 2].reverse →
      (network_query.mk ([32, 53, 49, 50] ++ List.replicate 512 0) 0).decode_header.1 = false)) :=
  ⟨⟨by decide, by decide, by decide, by decide⟩,
   C3_decode_accepts_exactly_in_range _ 1 [5, 1, 2] (by decide) (by decide) (by decide)
     (by decide)⟩

/-! ## The channel: frame lemmas -/

@[simp] theorem set_session_channel (self : Nat) (s : network_session) (w : seeder_server) :
    (w.set_session self s)._channel = w._channel := rfl

@[simp] theorem set_session_same (self : Nat) (s : network_session) (w : seeder_server) :
    (w.set_session self s).sessions self = s := by
  simp [seeder_server.set_session]

theorem set_session_other (self j : Nat) (s : network_session) (w : seeder_server)
    (h : j ≠ self) : (w.set_session self s).sessions j = w.sessions j := by
  simp [seeder_server.set_session, Function.update_noteq h]

theorem set_session_apply (self j : Nat) (s : network_session) (w : seeder_server) :
    (w.set_session self s).sessions j = if j = self then s else w.sessions j := by
  by_cases h : j = self
  · subst h; simp
  · simp [h, set_session_other]

theorem evict_eq_drop (l : List network_query) :
    evict l = l.drop (l.length - max_recent_queries) := by
  induction l with
  | nil => rfl
  | cons q qs ih =>
    unfold evict
    by_cases h : (q :: qs).length > max_recent_queries
    · rw [if_pos h, ih]
      simp only [List.length_cons, max_recent_queries] at h ⊢
      have : qs.length + 1 - 100 = (qs.length - 100) + 1 := by omega
      rw [this, List.drop_succ_cons]
    · rw [if_neg h]
      simp only [List.length_cons, max_recent_queries] at h ⊢
      have : qs.length + 1 - 100 = 0 := by omega
      rw [this, List.drop_zero]

theorem evict_length_le (l : List network_query) :
    (evict l).length ≤ max_recent_queries := by
  rw [evict_eq_drop, List.length_drop]
  omega

@[simp] theorem async_write_front_queue (s : network_session) :
    (async_write_front s)._write_queries = s._write_queries := by
  unfold async_write_front; split <;> rfl

@[simp] theorem async_write_front_read_query (s : network_session) :
    (async_write_front s)._read_query = s._read_query := by
  unfold async_write_front; split <;> rfl

@[simp] theorem async_write_front_started (s : network_session) :
    (async_write_front s).started = s.started := by
  unfold async_write_front; split <;> rfl

@[simp] theorem async_write_front_read_pending (s : network_session) :
    (async_write_front s).read_pending = s.read_pending := by
  unfold async_write_front; split <;> rfl

@[simp] theorem deliver_queue (q : network_query) (s : network_session) :
    (s.deliver q)._write_queries = s._write_queries ++ [q] := by
  unfold network_session.deliver
  simp only
  split <;> simp

@[simp] theorem deliver_read_query (q : network_query) (s : network_session) :
    (s.deliver q)._read_query = s._read_query := by
  unfold network_session.deliver
  simp only
  split <;> simp

@[simp] theorem deliver_started (q : network_query) (s : network_session) :
    (s.deliver q).started = s.started := by
  unfold network_session.deliver
  simp only
  split <;> simp

@[simp] theorem deliver_read_pending (q : network_query) (s : network_session) :
    (s.deliver q).read_pending = s.read_pending := by
  unfold network_session.deliver
  simp only
  split <;> simp

@[simp] theorem participant_deliver_channel (p : Nat) (q : network_query) (w : seeder_server) :
    (network_participant.deliver p q w)._channel = w._channel := rfl

theorem participant_deliver_apply (p j : Nat) (q : network_query) (w : seeder_server) :
    (network_participant.deliver p q w).sessions j =
      if j = p then (w.sessions p).deliver q else w.sessions j := by
  unfold network_participant.deliver
  rw [set_session_apply]

/-- The fan-out loop of `network_channel::deliver` leaves the channel alone. -/
theorem fan_out_channel (l : List Nat) (q : network_query) (w : seeder_server) :
    (l.foldl (fun v p => network_participant.deliver p q v) w)._channel = w._channel := by
  induction l generalizing w with
  | nil => rfl
  | cons p l ih => simp [List.foldl_cons, ih]

/-- The fan-out loop does not touch a session that is not in the list. -/
theorem fan_out_not_mem (l : List Nat) (q : network_query) (w : seeder_server) (j : Nat)
    (h : j ∉ l) :
    (l.foldl (fun v p => network_participant.deliver p q v) w).sessions j = w.sessions j := by
  induction l generalizing w with
  | nil => rfl
  | cons p l ih =>
    simp only [List.mem_cons, not_or] at h
    rw [List.foldl_cons, ih _ h.2, participant_deliver_apply, if_neg h.1]

/-- The fan-out loop calls `deliver` once on a session that is in the
duplicate-free list. -/
theorem fan_out_mem (l : List Nat) (q : network_query) (w : seeder_server) (j : Nat)
    (hnd : l.Nodup) (h : j ∈ l) :
    (l.foldl (fun v p => network_participant.deliver p q v) w).sessions j =
      (w.sessions j).deliver q := by
  induction l generalizing w with
  | nil => simp at h
  | cons p l ih =>
    rw [List.nodup_cons] at hnd
    rw [List.foldl_cons]
    by_cases hj : j = p
    · subst hj
      rw [fan_out_not_mem _ _ _ _ hnd.1, participant_deliver_apply, if_pos rfl]
    · have hm : j ∈ l := by
        rcases List.mem_cons.mp h with h | h
        · exact absurd h hj
        · exact h
      rw [ih _ hnd.2 hm, participant_deliver_apply, if_neg hj]

/-- The replay loop of `network_channel::join` leaves the channel alone. -/
theorem replay_channel (h : List network_query) (p : Nat) (w : seeder_server) :
    (h.foldl (fun v q => network_participant.deliver p q v) w)._channel = w._channel := by
  induction h generalizing w with
  | nil => rfl
  | cons q h ih => simp [List.foldl_cons, ih]

theorem replay_other (h : List network_query) (p j : Nat) (w : seeder_server) (hj : j ≠ p) :
    (h.foldl (fun v q => network_participant.deliver p q v) w).sessions j = w.sessions j := by
  induction h generalizing w with
  | nil => rfl
  | cons q h ih => rw [List.foldl_cons, ih, participant_deliver_apply, if_neg hj]

theorem replay_self (h : List network_query) (p : Nat) (w : seeder_server) :
    (h.foldl (fun v q => network_participant.deliver p q v) w).sessions p =
      h.foldl (fun s q => s.deliver q) (w.sessions p) := by
  induction h generalizing w with
  | nil => rfl
  | cons q h ih => rw [List.foldl_cons, ih, participant_deliver_apply, if_pos rfl, List.foldl_cons]

theorem foldl_deliver_queue (h : List network_query) (s : network_session) :
    (h.foldl (fun s q => s.deliver q) s)._write_queries = s._write_queries ++ h := by
  induction h generalizing s with
  | nil => simp
  | cons q h ih => rw [List.foldl_cons, ih, deliver_queue]; simp

@[simp] theorem channel_deliver_participants (q : network_query) (w : seeder_server) :
    (network_channel.deliver q w)._channel._participants = w._channel._participants := by
  simp [network_channel.deliver, fan_out_channel]

@[simp] theorem channel_deliver_recent (q : network_query) (w : seeder_server) :
    (network_channel.deliver q w)._channel._recent_queries =
      evict (w._channel._recent_queries ++ [q]) := by
  simp [network_channel.deliver, fan_out_channel]

@[simp] theorem channel_deliver_log (q : network_query) (w : seeder_server) :
    (network_channel.deliver q w)._channel.deliver_log = w._channel.deliver_log ++ [q] := by
  simp [network_channel.deliver, fan_out_channel]

theorem channel_deliver_not_mem (q : network_query) (w : seeder_server) (j : Nat)
    (h : j ∉ w._channel._participants) :
    (network_channel.deliver q w).sessions j = w.sessions j := by
  unfold network_channel.deliver
  simp only
  rw [fan_out_not_mem _ _ _ _ h]

theorem channel_deliver_mem (q : network_query) (w : seeder_server) (j : Nat)
    (hnd : w._channel._participants.Nodup) (h : j ∈ w._channel._participants) :
    (network_channel.deliver q w).sessions j = (w.sessions j).deliver q := by
  unfold network_channel.deliver
  simp only
  rw [fan_out_mem _ _ _ _ hnd h]

@[simp] theorem channel_join_participants (p : Nat) (w : seeder_server) :
    (network_channel.join p w)._channel._participants =
      set_insert p w._channel._participants := by
  simp [network_channel.join, replay_channel]

@[simp] theorem channel_join_recent (p : Nat) (w : seeder_server) :
    (network_channel.join p w)._channel._recent_queries = w._channel._recent_queries := by
  simp [network_channel.join, replay_channel]

@[simp] theorem channel_join_log (p : Nat) (w : seeder_server) :
    (network_channel.join p w)._channel.deliver_log = w._channel.deliver_log := by
  simp [network_channel.join, replay_channel]

theorem channel_join_other (p j : Nat) (w : seeder_server) (hj : j ≠ p) :
    (network_channel.join p w).sessions j = w.sessions j := by
  unfold network_channel.join
  simp only
  rw [replay_other _ _ _ _ hj]

theorem channel_join_self (p : Nat) (w : seeder_server) :
    (network_channel.join p w).sessions p =
      w._channel._recent_queries.foldl (fun s q => s.deliver q) (w.sessions p) := by
  unfold network_channel.join
  simp only
  rw [replay_self]

@[simp] theorem channel_leave_sessions (p : Nat) (w : seeder_server) :
    (network_channel.leave p w).sessions = w.sessions := rfl

@[simp] theorem channel_leave_participants (p : Nat) (w : seeder_server) :
    (network_channel.leave p w)._channel._participants =
      set_erase p w._channel._participants := rfl

@[simp] theorem channel_leave_recent (p : Nat) (w : seeder_server) :
    (network_channel.leave p w)._channel._recent_queries = w._channel._recent_queries := rfl

@[simp] theorem channel_leave_log (p : Nat) (w : seeder_server) :
    (network_channel.leave p w)._channel.deliver_log = w._channel.deliver_log := rfl

theorem mem_set_insert (p j : Nat) (l : List Nat) :
    j ∈ set_insert p l ↔ j = p ∨ j ∈ l := by
  unfold set_insert
  split
  · constructor
    · intro h; exact Or.inr h
    · rintro (rfl | h)
      · assumption
      · exact h
  · simp [List.mem_orderedInsert]

theorem nodup_set_insert (p : Nat) (l : List Nat) (h : l.Nodup) : (set_insert p l).Nodup := by
  unfold set_insert
  split
  · exact h
  · rename_i hp
    have := List.perm_orderedInsert (fun a b : Nat => a ≤ b) p l
    exact (this.nodup_iff).mpr (List.nodup_cons.mpr ⟨hp, h⟩)

theorem mem_set_erase (p j : Nat) (l : List Nat) :
    j ∈ set_erase p l ↔ j ∈ l ∧ j ≠ p := by
  simp [set_erase]

theorem nodup_set_erase (p : Nat) (l : List Nat) (h : l.Nodup) : (set_erase p l).Nodup :=
  h.filter _

theorem set_erase_of_not_mem (p : Nat) (l : List Nat) (h : p ∉ l) : set_erase p l = l := by
  unfold set_erase
  rw [List.filter_eq_self]
  intro a ha
  simp only [bne_iff_ne, ne_eq]
  rintro rfl
  exact h ha

theorem drop_last_append {α : Type} (H ms : List α) (m : α) (c : Nat) :
    (((H ++ [m]).drop ((H ++ [m]).length - c)) ++ ms).drop
        ((((H ++ [m]).drop ((H ++ [m]).length - c)) ++ ms).length - c) =
      (H ++ m :: ms).drop ((H ++ m :: ms).length - c) := by
  have hle : (H ++ [m]).length - c ≤ (H ++ [m]).length := Nat.sub_le _ _
  rw [← List.drop_append_of_le_length hle, List.drop_drop]
  have e1 : H ++ [m] ++ ms = H ++ m :: ms := by simp
  have e2 : (H ++ [m]).length - c +
      ((List.drop ((H ++ [m]).length - c) (H ++ [m] ++ ms)).length - c) =
      (H ++ m :: ms).length - c := by
    simp only [List.length_append, List.length_drop, List.length_cons, List.length_nil]
    omega
  rw [e2, e1]

/-- The history after a run of `network_channel::deliver` calls. -/
theorem deliver_all_recent (ms : List network_query) (w : seeder_server)
    (h : w._channel._recent_queries.length ≤ max_recent_queries) :
    (ms.foldl (fun v m => network_channel.deliver m v) w)._channel._recent_queries =
      (w._channel._recent_queries ++ ms).drop
        ((w._channel._recent_queries ++ ms).length - max_recent_queries) := by
  induction ms generalizing w with
  | nil =>
    simp only [List.foldl_nil, List.append_nil]
    rw [Nat.sub_eq_zero_of_le h, List.drop_zero]
  | cons m ms ih =>
    rw [List.foldl_cons, ih _ (by rw [channel_deliver_recent]; exact evict_length_le _)]
    rw [channel_deliver_recent, evict_eq_drop]
    exact drop_last_append _ _ _ _

theorem deliver_all_participants (ms : List network_query) (w : seeder_server) :
    (ms.foldl (fun v m => network_channel.deliver m v) w)._channel._participants =
      w._channel._participants := by
  induction ms generalizing w with
  | nil => rfl
  | cons m ms ih => rw [List.foldl_cons, ih, channel_deliver_participants]

theorem deliver_all_queue_mem (ms : List network_query) (w : seeder_server) (j : Nat)
    (hnd : w._channel._participants.Nodup) (h : j ∈ w._channel._participants) :
    ((ms.foldl (fun v m => network_channel.deliver m v) w).sessions j)._write_queries =
      (w.sessions j)._write_queries ++ ms := by
  induction ms generalizing w with
  | nil => simp
  | cons m ms ih =>
    rw [List.foldl_cons, ih _ (by simpa using hnd) (by simpa using h),
      channel_deliver_mem _ _ _ hnd h, deliver_queue]
    simp

/-- A field of a session that `network_session::deliver` does not change is
not changed by the fan-out loop. -/
theorem fan_out_field {α : Type} (f : network_session → α)
    (hf : ∀ q s, f (network_session.deliver q s) = f s)
    (l : List Nat) (q : network_query) (w : seeder_server) (j : Nat) :
    f ((l.foldl (fun v p => network_participant.deliver p q v) w).sessions j) =
      f (w.sessions j) := by
  induction l generalizing w with
  | nil => rfl
  | cons p l ih =>
    rw [List.foldl_cons, ih, participant_deliver_apply]
    split
    · rename_i h; subst h; exact hf _ _
    · rfl

/-- A field of a session that `network_session::deliver` does not change is
not changed by the replay loop. -/
theorem replay_field {α : Type} (f : network_session → α)
    (hf : ∀ q s, f (network_session.deliver q s) = f s)
    (h : List network_query) (p : Nat) (w : seeder_server) (j : Nat) :
    f ((h.foldl (fun v q => network_participant.deliver p q v) w).sessions j) =
      f (w.sessions j) := by
  induction h generalizing w with
  | nil => rfl
  | cons q h ih =>
    rw [List.foldl_cons, ih, participant_deliver_apply]
    split
    · rename_i h; subst h; exact hf _ _
    · rfl

theorem channel_deliver_field {α : Type} (f : network_session → α)
    (hf : ∀ q s, f (network_session.deliver q s) = f s)
    (q : network_query) (w : seeder_server) (j : Nat) :
    f ((network_channel.deliver q w).sessions j) = f (w.sessions j) := by
  unfold network_channel.deliver
  simp only
  rw [fan_out_field f hf]

theorem channel_join_field {α : Type} (f : network_session → α)
    (hf : ∀ q s, f (network_session.deliver q s) = f s)
    (p : Nat) (w : seeder_server) (j : Nat) :
    f ((network_channel.join p w).sessions j) = f (w.sessions j) := by
  unfold network_channel.join
  simp only
  rw [replay_field f hf]

@[simp] theorem channel_deliver_started (q : network_query) (w : seeder_server) (j : Nat) :
    ((network_channel.deliver q w).sessions j).started = (w.sessions j).started :=
  channel_deliver_field (fun s => s.started) (fun _ _ => deliver_started _ _) q w j

@[simp] theorem channel_deliver_read_pending (q : network_query) (w : seeder_server) (j : Nat) :
    ((network_channel.deliver q w).sessions j).read_pending = (w.sessions j).read_pending :=
  channel_deliver_field (fun s => s.read_pending) (fun _ _ => deliver_read_pending _ _) q w j

@[simp] theorem channel_deliver_read_query (q : network_query) (w : seeder_server) (j : Nat) :
    ((network_channel.deliver q w).sessions j)._read_query = (w.sessions j)._read_query :=
  channel_deliver_field (fun s => s._read_query) (fun _ _ => deliver_read_query _ _) q w j

@[simp] theorem channel_join_started (p : Nat) (w : seeder_server) (j : Nat) :
    ((network_channel.join p w).sessions j).started = (w.sessions j).started :=
  channel_join_field (fun s => s.started) (fun _ _ => deliver_started _ _) p w j

@[simp] theorem channel_join_read_pending (p : Nat) (w : seeder_server) (j : Nat) :
    ((network_channel.join p w).sessions j).read_pending = (w.sessions j).read_pending :=
  channel_join_field (fun s => s.read_pending) (fun _ _ => deliver_read_pending _ _) p w j

@[simp] theorem channel_join_read_query (p : Nat) (w : seeder_server) (j : Nat) :
    ((network_channel.join p w).sessions j)._read_query = (w.sessions j)._read_query :=
  channel_join_field (fun s => s._read_query) (fun _ _ => deliver_read_query _ _) p w j

theorem fire_accepted {w v : seeder_server} {self : Nat}
    (h : fire w (io_event.accepted self) = some v) :
    (w.sessions self).started = false ∧ v = network_session.start self w := by
  simp only [fire] at h
  split at h
  · exact absurd h (by simp)
  · rename_i hs
    simp only [Option.some.injEq] at h
    exact ⟨by simpa using hs, h.symm⟩

theorem fire_read_completed {w v : seeder_server} {self : Nat} {error : Bool}
    {bytes : List Nat} (h : fire w (io_event.read_completed self error bytes) = some v) :
    ((w.sessions self).read_pending = some read_op.header ∧
      bytes.length ≤ header_length ∧ (error = false → bytes.length = header_length) ∧
      v = network_session.handle_read_header error self (read_done self 0 bytes w)) ∨
    (∃ n, (w.sessions self).read_pending = some (read_op.body n) ∧
      bytes.length ≤ n ∧ (error = false → bytes.length = n) ∧
      v = network_session.handle_read_body error self
        (read_done self header_length bytes w)) := by
  simp only [fire] at h
  split at h
  · exact absurd h (by simp)
  · rename_i hp
    split at h
    · rename_i hc
      simp only [Option.some.injEq] at h
      exact Or.inl ⟨hp, hc.1, hc.2, h.symm⟩
    · exact absurd h (by simp)
  · rename_i n hp
    split at h
    · rename_i hc
      simp only [Option.some.injEq] at h
      exact Or.inr ⟨n, hp, hc.1, hc.2, h.symm⟩
    · exact absurd h (by simp)

theorem fire_write_completed {w v : seeder_server} {self : Nat} {error : Bool}
    (h : fire w (io_event.write_completed self error) = some v) :
    0 < (w.sessions self).writes_in_flight ∧
      v = network_session.handle_write error self (write_done self w) := by
  simp only [fire] at h
  split at h
  · rename_i hc
    simp only [Option.some.injEq] at h
    exact ⟨hc, h.symm⟩
  · exact absurd h (by simp)

/-! ## Events: what one step preserves -/

@[simp] theorem async_read_channel (self : Nat) (op : read_op) (w : seeder_server) :
    (async_read self op w)._channel = w._channel := rfl

theorem async_read_apply (self j : Nat) (op : read_op) (w : seeder_server) :
    (async_read self op w).sessions j =
      if j = self then { w.sessions self with read_pending := some op } else w.sessions j := by
  unfold async_read
  rw [set_session_apply]

@[simp] theorem read_done_channel (self off : Nat) (bytes : List Nat) (w : seeder_server) :
    (read_done self off bytes w)._channel = w._channel := rfl

theorem read_done_apply (self j off : Nat) (bytes : List Nat) (w : seeder_server) :
    (read_done self off bytes w).sessions j =
      if j = self then
        { w.sessions self with
          _read_query := { (w.sessions self)._read_query with
            _data := write_at (w.sessions self)._read_query._data off bytes },
          read_pending := none }
      else w.sessions j := by
  unfold read_done
  simp only
  rw [set_session_apply]

@[simp] theorem write_done_channel (self : Nat) (w : seeder_server) :
    (write_done self w)._channel = w._channel := rfl

theorem write_done_apply (self j : Nat) (w : seeder_server) :
    (write_done self w).sessions j =
      if j = self then
        { w.sessions self with writes_in_flight := (w.sessions self).writes_in_flight - 1 }
      else w.sessions j := by
  unfold write_done
  simp only
  rw [set_session_apply]

@[simp] theorem write_next_queue (s : network_session) :
    s.write_next._write_queries = s._write_queries.tail := by
  unfold network_session.write_next
  simp only
  split <;> simp

@[simp] theorem write_next_started (s : network_session) :
    s.write_next.started = s.started := by
  unfold network_session.write_next
  simp only
  split <;> simp

@[simp] theorem write_next_read_pending (s : network_session) :
    s.write_next.read_pending = s.read_pending := by
  unfold network_session.write_next
  simp only
  split <;> simp

@[simp] theorem write_next_read_query (s : network_session) :
    s.write_next._read_query = s._read_query := by
  unfold network_session.write_next
  simp only
  split <;> simp

/-- Once a session has been started, no event resets that, restarts a read
on it when none is outstanding, or puts it back into the participant set. -/
theorem fire_started_stable {w v : seeder_server} {e : io_event} (h : fire w e = some v)
    (i : Nat) (hs : (w.sessions i).started = true) :
    (v.sessions i).started = true ∧
    ((w.sessions i).read_pending = none → (v.sessions i).read_pending = none) ∧
    (i ∉ w._channel._participants → i ∉ v._channel._participants) := by
  cases e with
  | accepted self =>
    obtain ⟨hn, rfl⟩ := fire_accepted h
    have hne : i ≠ self := by
      rintro rfl
      rw [hs] at hn
      exact absurd hn (by simp)
    simp [network_session.start, async_read_apply, hne, set_session_apply, hs,
      mem_set_insert]
  | read_completed self error bytes =>
    rcases fire_read_completed h with ⟨hp, -, -, rfl⟩ | ⟨n, hp, -, -, rfl⟩
    · unfold network_session.handle_read_header
      by_cases hi : i = self
      · subst hi
        cases error <;> simp [hp, hs, read_done_apply, set_session_apply, async_read_apply,
          mem_set_erase]
        split <;> simp [hp, hs, read_done_apply, set_session_apply, async_read_apply,
          mem_set_erase]
      · cases error <;> simp [hi, hs, read_done_apply, set_session_apply, async_read_apply,
          mem_set_erase]
        split <;> simp [hi, hs, read_done_apply, set_session_apply, async_read_apply,
          mem_set_erase]
    · unfold network_session.handle_read_body
      by_cases hi : i = self
      · subst hi
        cases error <;> simp [hp, hs, read_done_apply, set_session_apply, async_read_apply,
          mem_set_erase]
      · cases error <;> simp [hi, hs, read_done_apply, set_session_apply, async_read_apply,
          mem_set_erase]
  | write_completed self error =>
    obtain ⟨-, rfl⟩ := fire_write_completed h
    unfold network_session.handle_write
    by_cases hi : i = self
    · subst hi
      cases error <;> simp [hs, write_done_apply, set_session_apply, mem_set_erase]
    · cases error <;> simp [hi, hs, write_done_apply, set_session_apply, mem_set_erase]

/-! ## Events: the invariant of reachable states -/

theorem drop_last_snoc {α : Type} (L : List α) (q : α) (c : Nat) :
    ((L.drop (L.length - c)) ++ [q]).drop (((L.drop (L.length - c)) ++ [q]).length - c) =
      (L ++ [q]).drop ((L ++ [q]).length - c) := by
  have hle : L.length - c ≤ L.length := Nat.sub_le _ _
  rw [← List.drop_append_of_le_length hle, List.drop_drop]
  have e2 : L.length - c + ((List.drop (L.length - c) (L ++ [q])).length - c) =
      (L ++ [q]).length - c := by
    simp only [List.length_append, List.length_drop, List.length_cons, List.length_nil]
    omega
  rw [e2]

theorem server_inv_initial (mem : Nat → List Nat) : server_inv (seeder_server.initial mem) := by
  refine ⟨rfl, List.nodup_nil, ?_⟩
  intro i _
  exact ⟨by simp [seeder_server.initial], rfl, rfl, rfl⟩

theorem server_inv_started {w : seeder_server} (hw : server_inv w) (i : Nat)
    (h : (w.sessions i).read_pending ≠ none ∨ 0 < (w.sessions i).writes_in_flight ∨
      i ∈ w._channel._participants) : (w.sessions i).started = true := by
  by_contra hs
  have hs2 : (w.sessions i).started = false := by simpa using hs
  obtain ⟨h1, h2, h3, -⟩ := hw.2.2 i hs2
  rcases h with h | h | h
  · exact h h2
  · omega
  · exact h1 h

theorem server_inv_fire {w v : seeder_server} {e : io_event} (hw : server_inv w)
    (h : fire w e = some v) : server_inv v := by
  obtain ⟨ha, hb, hc⟩ := hw
  cases e with
  | accepted self =>
    obtain ⟨hn, rfl⟩ := fire_accepted h
    refine ⟨?_, ?_, ?_⟩
    · simpa [network_session.start] using ha
    · simpa [network_session.start] using nodup_set_insert _ _ hb
    · intro i hi
      have hne : i ≠ self := by
        rintro rfl
        simp [network_session.start, async_read_apply, set_session_apply] at hi
      have hsame : (network_session.start self w).sessions i = w.sessions i := by
        simp [network_session.start, async_read_apply, hne, channel_join_other,
          set_session_apply]
      rw [hsame] at hi ⊢
      obtain ⟨h1, h2⟩ := hc i hi
      refine ⟨?_, h2⟩
      simp [network_session.start, mem_set_insert, hne, h1]
  | read_completed self error bytes =>
    have hst : (w.sessions self).started = true := by
      apply server_inv_started ⟨ha, hb, hc⟩
      left
      rcases fire_read_completed h with ⟨hp, -⟩ | ⟨n, hp, -⟩ <;> simp [hp]
    have hne : ∀ i, (w.sessions i).started = false → i ≠ self := by
      rintro i hi rfl
      rw [hst] at hi
      exact absurd hi (by simp)
    rcases fire_read_completed h with ⟨hp, -, -, rfl⟩ | ⟨n, hp, -, -, rfl⟩
    · unfold network_session.handle_read_header
      refine ⟨?_, ?_, ?_⟩
      · cases error <;> simp [ha]
        split <;> simp [ha]
      · cases error <;> simp [nodup_set_erase _ _ hb]
        split <;> simp [nodup_set_erase _ _ hb, hb]
      · intro i hi
        have hi0 : (w.sessions i).started = false := by
          by_cases hi2 : i = self
          · subst hi2
            revert hi
            cases error <;> simp [read_done_apply, set_session_apply, async_read_apply]
            split <;> simp [read_done_apply, set_session_apply, async_read_apply]
          · revert hi
            cases error <;> simp [read_done_apply, set_session_apply, async_read_apply, hi2]
            split <;> simp [read_done_apply, set_session_apply, async_read_apply, hi2]
        have hi2 := hne i hi0
        obtain ⟨h1, h2⟩ := hc i hi0
        cases error <;> simp [read_done_apply, set_session_apply, async_read_apply, hi2, h1, h2,
          mem_set_erase]
        split <;> simp [read_done_apply, set_session_apply, async_read_apply, hi2, h1, h2,
          mem_set_erase]
    · unfold network_session.handle_read_body
      refine ⟨?_, ?_, ?_⟩
      · cases error
        · simp only [Bool.not_false, if_true, async_read_channel, channel_deliver_recent,
            channel_deliver_log, read_done_channel]
          rw [evict_eq_drop, ha]
          exact drop_last_snoc _ _ _
        · simp [ha]
      · cases error <;> simp [nodup_set_erase _ _ hb, hb]
      · intro i hi
        have hi0 : (w.sessions i).started = false := by
          by_cases hi2 : i = self
          · subst hi2
            revert hi
            cases error <;> simp [read_done_apply, set_session_apply, async_read_apply]
          · revert hi
            cases error <;> simp [read_done_apply, set_session_apply, async_read_apply, hi2]
        have hi2 := hne i hi0
        obtain ⟨h1, h2⟩ := hc i hi0
        cases error
        · have hnm : i ∉ (read_done self header_length bytes w)._channel._participants := h1
          simp [async_read_apply, hi2, channel_deliver_not_mem _ _ _ hnm, read_done_apply, h1, h2]
        · simp [read_done_apply, hi2, h1, h2, mem_set_erase]
  | write_completed self error =>
    obtain ⟨hpos, rfl⟩ := fire_write_completed h
    have hst : (w.sessions self).started = true :=
      server_inv_started ⟨ha, hb, hc⟩ self (Or.inr (Or.inl hpos))
    have hne : ∀ i, (w.sessions i).started = false → i ≠ self := by
      rintro i hi rfl
      rw [hst] at hi
      exact absurd hi (by simp)
    unfold network_session.handle_write
    refine ⟨?_, ?_, ?_⟩
    · cases error <;> simp [ha]
    · cases error <;> simp [nodup_set_erase _ _ hb, hb]
    · intro i hi
      have hi0 : (w.sessions i).started = false := by
        by_cases hi2 : i = self
        · subst hi2
          revert hi
          cases error <;> simp [write_done_apply, set_session_apply]
        · revert hi
          cases error <;> simp [write_done_apply, set_session_apply, hi2]
      have hi2 := hne i hi0
      obtain ⟨h1, h2⟩ := hc i hi0
      cases error <;> simp [write_done_apply, set_session_apply, hi2, h1, h2, mem_set_erase]

theorem reachable_inv {w : seeder_server} (hw : Reachable w) : server_inv w := by
  induction hw with
  | init mem _ => exact server_inv_initial mem
  | step e _ he ih => exact server_inv_fire ih he

/-! ## The channel: history, replay and fan-out -/

/-- C4: on a channel with an empty history, after `network_channel::deliver`
has been called with `M1..Mk` in order the retained history
(`_recent_queries`) is exactly the last `min(k,100)` messages in delivery
order; after 150 deliveries it is `[M51..M150]`; and in every reachable
state the history holds at most 100 messages, namely the last 100 passed to
`deliver`. -/
theorem C4_bounded_fifo_history (w : seeder_server) (ms : List network_query)
    (h : w._channel._recent_queries = []) :
    (ms.foldl (fun v m => network_channel.deliver m v) w)._channel._recent_queries =
      ms.drop (ms.length - min ms.length 100) ∧
    ((ms.foldl (fun v m => network_channel.deliver m v) w)._channel._recent_queries).length =
      min ms.length 100 ∧
    (ms.length = 150 →
      (ms.foldl (fun v m => network_channel.deliver m v) w)._channel._recent_queries =
        ms.drop 50) ∧
    (∀ v, Reachable v →
      v._channel._recent_queries.length ≤ 100 ∧
      v._channel._recent_queries =
        v._channel.deliver_log.drop (v._channel.deliver_log.length - 100)) := by
  have key := deliver_all_recent ms w (by rw [h]; simp)
  rw [h, List.nil_append] at key
  have hmin : ms.length - min ms.length 100 = ms.length - 100 := by omega
  refine ⟨?_, ?_, ?_, ?_⟩
  · rw [key, hmin]
  · rw [key, List.length_drop]
    simp only [max_recent_queries]
    omega
  · intro h150
    rw [key, h150]
    rfl
  · intro v hv
    have hi := (reachable_inv hv).1
    refine ⟨?_, hi⟩
    rw [hi, List.length_drop]
    simp only [max_recent_queries]
    omega

/-- Witness of C4: three deliveries on a constructed server. -/
theorem C4_bounded_fifo_history_witness :
    (seeder_server.initial (fun _ => List.replicate 516 0))._channel._recent_queries = [] ∧
    ((List.replicate 3 (network_query.mk (List.replicate 516 0) 0)).foldl
        (fun v m => network_channel.deliver m v)
        (seeder_server.initial (fun _ => List.replicate 516 0)))._channel._recent_queries.length =
      min (List.replicate 3 (network_query.mk (List.replicate 516 0) 0)).length 100 :=
  ⟨rfl, (C4_bounded_fifo_history (seeder_server.initial (fun _ => List.replicate 516 0))
    (List.replicate 3 (network_query.mk (List.replicate 516 0) 0)) rfl).2.1⟩

/-- C5: when the history was produced by deliveries `M1..MN` (`N ≤ 100`) on
a channel with an empty history, a connection with an empty outbound queue
that joins has exactly `M1..MN` in its queue, oldest first, and the messages
delivered to the channel after the join follow them in the queue. The
participant set is a `std::set`, so it has no duplicates. -/
theorem C5_history_replay_on_join (w : seeder_server) (ms ds : List network_query)
    (p : Nat) (hN : ms.length ≤ 100) (h : w._channel._recent_queries = [])
    (hnd : w._channel._participants.Nodup)
    (hq : ((ms.foldl (fun v m => network_channel.deliver m v) w).sessions p)._write_queries
      = []) :
    ((network_channel.join p
        (ms.foldl (fun v m => network_channel.deliver m v) w)).sessions p)._write_queries
      = ms ∧
    ((ds.foldl (fun v m => network_channel.deliver m v)
        (network_channel.join p
          (ms.foldl (fun v m => network_channel.deliver m v) w))).sessions p)._write_queries
      = ms ++ ds := by
  have key := deliver_all_recent ms w (by rw [h]; simp)
  rw [h, List.nil_append] at key
  have h0 : ms.length - max_recent_queries = 0 := by
    simp only [max_recent_queries]; omega
  rw [h0, List.drop_zero] at key
  have hj : ((network_channel.join p
      (ms.foldl (fun v m => network_channel.deliver m v) w)).sessions p)._write_queries
      = ms := by
    rw [channel_join_self, foldl_deliver_queue, hq, key, List.nil_append]
  refine ⟨hj, ?_⟩
  rw [deliver_all_queue_mem, hj]
  · rw [channel_join_participants]
    apply nodup_set_insert
    rw [deliver_all_participants]
    exact hnd
  · rw [channel_join_participants, mem_set_insert]
    exact Or.inl rfl

/-- Witness of C5: two deliveries, then session 7 joins, then one more
delivery. -/
theorem C5_history_replay_on_join_witness :
    ((network_channel.join 7
        ([network_query.mk [32, 32, 32, 49, 97] 1, network_query.mk [32, 32, 32, 49, 98] 1].foldl
          (fun v m => network_channel.deliver m v)
          (seeder_server.initial (fun _ => List.replicate 516 0)))).sessions 7)._write_queries
      = [network_query.mk [32, 32, 32, 49, 97] 1, network_query.mk [32, 32, 32, 49, 98] 1] ∧
    (([network_query.mk [32, 32, 32, 49, 99] 1].foldl (fun v m => network_channel.deliver m v)
        (network_channel.join 7
          ([network_query.mk [32, 32, 32, 49, 97] 1,
              network_query.mk [32, 32, 32, 49, 98] 1].foldl
            (fun v m => network_channel.deliver m v)
            (seeder_server.initial (fun _ => List.replicate 516 0))))).sessions 7)._write_queries
      = [network_query.mk [32, 32, 32, 49, 97] 1, network_query.mk [32, 32, 32, 49, 98] 1] ++
          [network_query.mk [32, 32, 32, 49, 99] 1] :=
  C5_history_replay_on_join (seeder_server.initial (fun _ => List.replicate 516 0))
    [network_query.mk [32, 32, 32, 49, 97] 1, network_query.mk [32, 32, 32, 49, 98] 1]
    [network_query.mk [32, 32, 32, 49, 99] 1] 7 (by decide) rfl List.nodup_nil rfl

/-- C6: `network_channel::deliver(M)` appends `M` once to the end of the
outbound queue of every participant (the sender, when it is a participant,
included: `handle_read_body` delivers `_read_query` to its own session too)
and leaves every session outside the participant set unchanged; after a
second delivery `M2` every participant has `M` and then `M2` at the end of
its queue. The participant set is a `std::set`, so it has no duplicates. -/
theorem C6_fan_out_without_self_exclusion (w : seeder_server) (m m2 : network_query)
    (hnd : w._channel._participants.Nodup) :
    (∀ p ∈ w._channel._participants,
      ((network_channel.deliver m w).sessions p)._write_queries =
        (w.sessions p)._write_queries ++ [m]) ∧
    (∀ j, j ∉ w._channel._participants →
      (network_channel.deliver m w).sessions j = w.sessions j) ∧
    (∀ p ∈ w._channel._participants,
      ((network_channel.deliver m2 (network_channel.deliver m w)).sessions p)._write_queries =
        (w.sessions p)._write_queries ++ [m, m2]) ∧
    (∀ self ∈ w._channel._participants,
      ((network_session.handle_read_body false self w).sessions self)._write_queries =
        (w.sessions self)._write_queries ++ [(w.sessions self)._read_query]) := by
  refine ⟨?_, ?_, ?_, ?_⟩
  · intro p hp
    rw [channel_deliver_mem _ _ _ hnd hp, deliver_queue]
  · intro j hj
    exact channel_deliver_not_mem _ _ _ hj
  · intro p hp
    rw [channel_deliver_mem _ _ _ (by simpa using hnd) (by simpa using hp), deliver_queue,
      channel_deliver_mem _ _ _ hnd hp, deliver_queue]
    simp
  · intro self hs
    simp only [network_session.handle_read_body, Bool.not_false, if_true, async_read_apply,
      if_pos]
    rw [channel_deliver_mem _ _ _ hnd hs, deliver_queue]

/-- Witness of C6: sessions 1, 2 and 3 have joined a constructed server and a
message is delivered; session 2 receives it. -/
theorem C6_fan_out_without_self_exclusion_witness :
    ((network_channel.join 3 (network_channel.join 2 (network_channel.join 1
        (seeder_server.initial (fun _ => List.replicate 516 0)))))._channel._participants.Nodup ∧
      2 ∈ (network_channel.join 3 (network_channel.join 2 (network_channel.join 1
        (seeder_server.initial (fun _ => List.replicate 516 0)))))._channel._participants) ∧
    ((network_channel.deliver (network_query.mk [32, 32, 32, 49, 97] 1)
      (network_channel.join 3 (network_channel.join 2 (network_channel.join 1
        (seeder_server.initial (fun _ => List.replicate 516 0)))))).sessions 2)._write_queries =
      ((network_channel.join 3 (network_channel.join 2 (network_channel.join 1
        (seeder_server.initial (fun _ => List.replicate 516 0))))).sessions 2)._write_queries
        ++ [network_query.mk [32, 32, 32, 49, 97] 1] :=
  ⟨⟨by decide, by decide⟩,
   (C6_fan_out_without_self_exclusion
      (network_channel.join 3 (network_channel.join 2 (network_channel.join 1
        (seeder_server.initial (fun _ => List.replicate 516 0)))))
      (network_query.mk [32, 32, 32, 49, 97] 1) (network_query.mk [32, 32, 32, 49, 98] 1)
      (by decide)).1 2 (by decide)⟩

/-! ## The session: order of writes -/

/-- The write side of a session in terms of the messages delivered to it so
far (`d`): with an empty queue nothing is outstanding and a write was
started for every message; otherwise one write is outstanding, for the
front of the queue, and the messages are those written followed by the rest
of the queue. -/
theorem write_inv_step (s t : network_session) (e : write_event) (d : List network_query)
    (hinv : (s._write_queries = [] → s.writes_in_flight = 0 ∧ s.writes_started = d) ∧
      (∀ q rest, s._write_queries = q :: rest →
        s.writes_in_flight = 1 ∧ ∃ pre, s.writes_started = pre ++ [q] ∧ d = pre ++ q :: rest))
    (h : write_step s e = some t) :
    (t._write_queries = [] →
        t.writes_in_flight = 0 ∧ t.writes_started = d ++ delivered [e]) ∧
      (∀ q rest, t._write_queries = q :: rest →
        t.writes_in_flight = 1 ∧
        ∃ pre, t.writes_started = pre ++ [q] ∧ d ++ delivered [e] = pre ++ q :: rest) := by
  obtain ⟨h1, h2⟩ := hinv
  cases e with
  | deliver m =>
    simp only [write_step, Option.some.injEq] at h
    subst h
    cases hq : s._write_queries with
    | nil =>
      obtain ⟨ha, hb⟩ := h1 hq
      simp [network_session.deliver, async_write_front, hq, delivered, ha, hb]
    | cons q rest =>
      obtain ⟨ha, pre, hb, hc⟩ := h2 q rest hq
      simp [network_session.deliver, hq, delivered, ha, hb, hc]
  | completed =>
    simp only [write_step] at h
    split at h
    · rename_i hpos
      simp only [Option.some.injEq] at h
      subst h
      cases hq : s._write_queries with
      | nil =>
        have := (h1 hq).1
        omega
      | cons q rest =>
        obtain ⟨ha, pre, hb, hc⟩ := h2 q rest hq
        cases rest with
        | nil =>
          simp [network_session.write_next, hq, delivered, ha, hb, hc]
        | cons r rs =>
          simp [network_session.write_next, async_write_front, hq, delivered, ha, hb, hc]
          exact ⟨pre ++ [q], by simp, by simp⟩
    · exact absurd h (by simp)

theorem delivered_append (es fs : List write_event) :
    delivered (es ++ fs) = delivered es ++ delivered fs := by
  induction es with
  | nil => rfl
  | cons e es ih =>
    cases e <;> simp [delivered, ih]

theorem write_inv_run (evs : List write_event) (s t : network_session) (d : List network_query)
    (hinv : (s._write_queries = [] → s.writes_in_flight = 0 ∧ s.writes_started = d) ∧
      (∀ q rest, s._write_queries = q :: rest →
        s.writes_in_flight = 1 ∧ ∃ pre, s.writes_started = pre ++ [q] ∧ d = pre ++ q :: rest))
    (h : write_run s evs = some t) :
    (t._write_queries = [] →
        t.writes_in_flight = 0 ∧ t.writes_started = d ++ delivered evs) ∧
      (∀ q rest, t._write_queries = q :: rest →
        t.writes_in_flight = 1 ∧
        ∃ pre, t.writes_started = pre ++ [q] ∧ d ++ delivered evs = pre ++ q :: rest) := by
  induction evs generalizing s d with
  | nil =>
    simp only [write_run, Option.some.injEq] at h
    subst h
    simpa [delivered] using hinv
  | cons e es ih =>
    simp only [write_run] at h
    cases hs : write_step s e with
    | none => rw [hs] at h; exact absurd h (by simp)
    | some u =>
      rw [hs] at h
      simp only [Option.some_bind] at h
      have hu := write_inv_step s u e d hinv hs
      have := ih u (d ++ delivered [e]) hu h
      have e1 : d ++ delivered [e] ++ delivered es = d ++ delivered (e :: es) := by
        rw [List.append_assoc, ← delivered_append]
        rfl
      rw [e1] at this
      exact this

/-- A write completion without error of the server acts on the session as
the write-side step `write_event.completed`. -/
theorem fire_write_completed_session {w v : seeder_server} {self : Nat}
    (h : fire w (io_event.write_completed self false) = some v) :
    write_step (w.sessions self) write_event.completed = some (v.sessions self) := by
  obtain ⟨hpos, rfl⟩ := fire_write_completed h
  simp [write_step, hpos, network_session.handle_write, write_done_apply]

/-- C7: in every state a freshly constructed session reaches by calls of
`network_session::deliver` and write completions without error, the
messages for which a write was started are, in order, a prefix of the
messages passed to `deliver`, the rest being the queue behind its front; the
two sequences are equal once the queue is empty. Three messages delivered
before any completion are written as `M1`, `M2`, `M3`. -/
theorem C7_per_connection_write_order (buf : List Nat) (evs : List write_event)
    (s : network_session) (h : write_run (network_session.fresh buf) evs = some s) :
    s.writes_started <+: delivered evs ∧
    delivered evs = s.writes_started ++ s._write_queries.tail ∧
    (s._write_queries = [] → s.writes_started = delivered evs) ∧
    (∀ m1 m2 m3 : network_query, ∃ t,
      write_run (network_session.fresh buf)
        [write_event.deliver m1, write_event.deliver m2, write_event.deliver m3,
          write_event.completed, write_event.completed] = some t ∧
      t.writes_started = [m1, m2, m3]) := by
  have hinv := write_inv_run evs (network_session.fresh buf) s []
    ⟨fun _ => ⟨rfl, rfl⟩, fun q rest hq => by simp [network_session.fresh] at hq⟩ h
  simp only [List.nil_append] at hinv
  have key : delivered evs = s.writes_started ++ s._write_queries.tail := by
    cases hq : s._write_queries with
    | nil => simp [(hinv.1 hq).2]
    | cons q rest =>
      obtain ⟨-, pre, hb, hc⟩ := hinv.2 q rest hq
      simp [hb, hc]
  refine ⟨?_, key, ?_, ?_⟩
  · rw [key]
    exact List.prefix_append _ _
  · intro hq
    simp [key, hq]
  · intro m1 m2 m3
    exact ⟨_, rfl, rfl⟩

/-- Witness of C7: two deliveries and one completion on a fresh session. -/
theorem C7_per_connection_write_order_witness :
    (network_session.mk (network_query.mk [] 0)
        [network_query.mk [32, 32, 32, 49, 98] 1] false none 1
        [network_query.mk [32, 32, 32, 49, 97] 1,
          network_query.mk [32, 32, 32, 49, 98] 1]).writes_started <+:
      delivered [write_event.deliver (network_query.mk [32, 32, 32, 49, 97] 1),
        write_event.deliver (network_query.mk [32, 32, 32, 49, 98] 1),
        write_event.completed] :=
  (C7_per_connection_write_order [] [write_event.deliver (network_query.mk [32, 32, 32, 49, 97] 1),
        write_event.deliver (network_query.mk [32, 32, 32, 49, 98] 1),
        write_event.completed] _ rfl).1

/-! ## The session: reading a frame -/

theorem sprintf_4d_length (n : Nat) (hn : n < 10000) : (sprintf_4d n).length = 4 := by
  obtain ⟨k, ds, hk, -, -, hs, -⟩ := sprintf_4d_form n hn
  rw [hs]; simp; omega

theorem decode_header_sprintf (q : network_query) (n : Nat) (hn : n ≤ 512)
    (hq : q._data.take 4 = sprintf_4d n) :
    q.decode_header = (true, { q with _body_length := n }) := by
  obtain ⟨k, ds, hk, hne, hd, hs, hv⟩ := sprintf_4d_form n (by omega)
  rw [decode_header_of_header q k ds hk hne hd (by rw [hq, hs]), hv, if_pos hn]

theorem write_at_zero_take (buf hdr : List Nat) (h : hdr.length = 4) :
    (write_at buf 0 hdr).take 4 = hdr := by
  unfold write_at
  rw [List.take_zero, List.nil_append, List.take_append_eq_append_take,
    List.take_of_length_le (le_of_eq h), h]
  simp

theorem write_at_body_take (buf b : List Nat) (h : 4 ≤ buf.length) :
    (write_at buf 4 b).take (4 + b.length) = buf.take 4 ++ b := by
  unfold write_at
  have h4 : (buf.take 4 ++ b).length = 4 + b.length := by
    rw [List.length_append, List.length_take, Nat.min_eq_left h]
  rw [List.take_append_eq_append_take, List.take_of_length_le (le_of_eq h4), h4]
  simp

/-- C8: a participant with a header read outstanding reads the header
`sprintf_4d n` (`n` right-justified in 4 characters, `n ≤ 512`) and then the
`n` bytes of `b`, both without error: both completions run, and a message
whose frame is exactly that header followed by `b` (length `4 + n`, body
`b`) is appended to that session's own outbound queue. For `n = 5` the
header is `"   5"`. The participant set is a `std::set`, so it has no
duplicates. -/
theorem C8_end_to_end_echo (w : seeder_server) (self n : Nat) (b : List Nat)
    (hn : n ≤ 512) (hb : b.length = n) (hnd : w._channel._participants.Nodup)
    (hp : self ∈ w._channel._participants)
    (hr : (w.sessions self).read_pending = some read_op.header) :
    ∃ w1 w2 m,
      fire w (io_event.read_completed self false (sprintf_4d n)) = some w1 ∧
      fire w1 (io_event.read_completed self false b) = some w2 ∧
      (w2.sessions self)._write_queries = (w.sessions self)._write_queries ++ [m] ∧
      m.frame = sprintf_4d n ++ b ∧ m.frame.length = 4 + n ∧
      m.body.take m.body_length = b ∧ sprintf_4d 5 = [32, 32, 32, 53] := by
  have hlen := sprintf_4d_length n (by omega)
  -- the header completion
  have hdec := decode_header_sprintf
    ((read_done self 0 (sprintf_4d n) w).sessions self)._read_query n hn
    (by simp [read_done_apply, write_at_zero_take _ _ hlen])
  have e1 : fire w (io_event.read_completed self false (sprintf_4d n)) =
      some (network_session.handle_read_header false self
        (read_done self 0 (sprintf_4d n) w)) := by
    simp [fire, hr, hlen]
  have hw1 : ∀ j, (network_session.handle_read_header false self
      (read_done self 0 (sprintf_4d n) w)).sessions j =
      if j = self then
        { w.sessions self with
          _read_query := { _data := write_at (w.sessions self)._read_query._data 0 (sprintf_4d n),
                           _body_length := n },
          read_pending := some (read_op.body n) }
      else w.sessions j := by
    intro j
    unfold network_session.handle_read_header
    simp only [Bool.false_eq_true, if_false, hdec, if_true, async_read_apply, set_session_apply,
      network_query.body_length]
    by_cases hj : j = self
    · subst hj
      simp [read_done_apply]
    · simp [hj, read_done_apply]
  have hc1 : (network_session.handle_read_header false self
      (read_done self 0 (sprintf_4d n) w))._channel = w._channel := by
    unfold network_session.handle_read_header
    simp [hdec]
  -- the body completion
  have e2 : fire (network_session.handle_read_header false self
        (read_done self 0 (sprintf_4d n) w)) (io_event.read_completed self false b) =
      some (network_session.handle_read_body false self
        (read_done self header_length b (network_session.handle_read_header false self
          (read_done self 0 (sprintf_4d n) w)))) := by
    simp [fire, hw1, hb]
  refine ⟨_, _, { _data := write_at (write_at (w.sessions self)._read_query._data 0
      (sprintf_4d n)) 4 b, _body_length := n }, e1, e2, ?_, ?_, ?_, ?_, by decide⟩
  · simp only [network_session.handle_read_body, Bool.not_false, if_true, async_read_apply,
      if_pos]
    rw [channel_deliver_mem _ _ _ (by simpa [hc1] using hnd) (by simpa [hc1] using hp),
      deliver_queue]
    simp [read_done_apply, hw1, header_length]
  · have h4 : 4 ≤ (write_at (w.sessions self)._read_query._data 0 (sprintf_4d n)).length := by
      simp [write_at, hlen]
    have := write_at_body_take (write_at (w.sessions self)._read_query._data 0 (sprintf_4d n))
      b h4
    rw [hb, write_at_zero_take _ _ hlen] at this
    simpa [network_query.frame, network_query.length, header_length] using this
  · have h4 : 4 ≤ (write_at (w.sessions self)._read_query._data 0 (sprintf_4d n)).length := by
      simp [write_at, hlen]
    have := write_at_body_take (write_at (w.sessions self)._read_query._data 0 (sprintf_4d n))
      b h4
    rw [hb, write_at_zero_take _ _ hlen] at this
    simp only [network_query.frame, network_query.length, header_length]
    rw [this]
    simp [hlen, hb]
  · simp only [network_query.body, network_query.body_length, header_length, write_at]
    have h4 : (List.take 4 (List.take 0 (w.sessions self)._read_query._data ++ sprintf_4d n ++
        List.drop (0 + (sprintf_4d n).length) (w.sessions self)._read_query._data)).length
        = 4 := by
      simp [hlen]
    rw [List.append_assoc, List.drop_append_of_le_length (le_of_eq h4.symm)]
    rw [List.drop_of_length_le (le_of_eq h4), List.nil_append,
      List.take_append_of_le_length (le_of_eq hb.symm), List.take_of_length_le (le_of_eq hb)]

/-- Witness of C8: session 1 of a constructed server has been started and
reads the header `"   5"` and the body `"hello"`. -/
theorem C8_end_to_end_echo_witness :
    (5 ≤ 512 ∧ [104, 101, 108, 108, 111].length = 5 ∧
      1 ∈ (network_session.start 1
        (seeder_server.initial (fun _ => List.replicate 516 0)))._channel._participants ∧
      ((network_session.start 1
        (seeder_server.initial (fun _ => List.replicate 516 0))).sessions 1).read_pending =
        some read_op.header) ∧
    ∃ w1 w2 m,
      fire (network_session.start 1 (seeder_server.initial (fun _ => List.replicate 516 0)))
        (io_event.read_completed 1 false (sprintf_4d 5)) = some w1 ∧
      fire w1 (io_event.read_completed 1 false [104, 101, 108, 108, 111]) = some w2 ∧
      (w2.sessions 1)._write_queries =
        ((network_session.start 1
          (seeder_server.initial (fun _ => List.replicate 516 0))).sessions 1)._write_queries
          ++ [m] ∧
      m.frame = sprintf_4d 5 ++ [104, 101, 108, 108, 111] ∧ m.frame.length = 4 + 5 ∧
      m.body.take m.body_length = [104, 101, 108, 108, 111] ∧
      sprintf_4d 5 = [32, 32, 32, 53] :=
  ⟨⟨by decide, by decide, by decide, by decide⟩,
   C8_end_to_end_echo (network_session.start 1
      (seeder_server.initial (fun _ => List.replicate 516 0))) 1 5 [104, 101, 108, 108, 111]
      (by decide) (by decide) (by decide) (by decide) (by decide)⟩

/-! ## Errors: a failed read, a failed write -/

theorem run_cons_some {w u : seeder_server} {e : io_event} {es : List io_event}
    (h : run w (e :: es) = some u) : ∃ v, fire w e = some v ∧ run v es = some u := by
  simp only [run] at h
  cases hf : fire w e with
  | none => rw [hf] at h; exact absurd h (by simp)
  | some v => rw [hf] at h; exact ⟨v, rfl, by simpa using h⟩

/-- A started session with no read outstanding never has one again, and a
started session outside the participant set stays outside. -/
theorem run_started_stable {w u : seeder_server} (evs : List io_event) (h : run w evs = some u)
    (i : Nat) (hs : (w.sessions i).started = true) :
    (u.sessions i).started = true ∧
    ((w.sessions i).read_pending = none → (u.sessions i).read_pending = none) ∧
    (i ∉ w._channel._participants → i ∉ u._channel._participants) := by
  induction evs generalizing w with
  | nil =>
    simp only [run, Option.some.injEq] at h
    subst h
    exact ⟨hs, id, id⟩
  | cons e es ih =>
    obtain ⟨v, hf, hr⟩ := run_cons_some h
    obtain ⟨h1, h2, h3⟩ := fire_started_stable hf i hs
    obtain ⟨k1, k2, k3⟩ := ih hr h1
    exact ⟨k1, fun hn => k2 (h2 hn), fun hn => k3 (h3 hn)⟩

theorem reachable_run {w u : seeder_server} (evs : List io_event) (hw : Reachable w)
    (h : run w evs = some u) : Reachable u := by
  induction evs generalizing w with
  | nil =>
    simp only [run, Option.some.injEq] at h
    subst h
    exact hw
  | cons e es ih =>
    obtain ⟨v, hf, hr⟩ := run_cons_some h
    exact ih (Reachable.step e hw hf) hr

/-- C9: when the completion handler of a header read runs with an I/O error,
or with header bytes for which `decode_header()` returns `false`, the
session is removed from the participant set, the history and the log of
`deliver` calls are unchanged, no session's outbound queue changes and no
write is started, and the session has no read outstanding then or after any
later events. -/
theorem C9_read_error_closes_silently (w v : seeder_server) (self : Nat) (error : Bool)
    (bytes : List Nat) (hw : Reachable w)
    (hr : (w.sessions self).read_pending = some read_op.header)
    (hf : fire w (io_event.read_completed self error bytes) = some v)
    (hbad : error = true ∨
      ((read_done self 0 bytes w).sessions self)._read_query.decode_header.1 = false) :
    v._channel._participants = set_erase self w._channel._participants ∧
    self ∉ v._channel._participants ∧
    v._channel._recent_queries = w._channel._recent_queries ∧
    v._channel.deliver_log = w._channel.deliver_log ∧
    (∀ j, (v.sessions j)._write_queries = (w.sessions j)._write_queries) ∧
    (∀ j, (v.sessions j).writes_started = (w.sessions j).writes_started) ∧
    (v.sessions self).read_pending = none ∧
    (∀ evs u, run v evs = some u → (u.sessions self).read_pending = none) := by
  have hst : (w.sessions self).started = true :=
    server_inv_started (reachable_inv hw) self (Or.inl (by simp [hr]))
  have hv : v = network_session.handle_read_header error self (read_done self 0 bytes w) := by
    rcases fire_read_completed hf with ⟨-, -, -, h⟩ | ⟨n, hp, -⟩
    · exact h
    · rw [hr] at hp
      exact absurd hp (by simp)
  have hch : v._channel._participants = set_erase self w._channel._participants ∧
      v._channel._recent_queries = w._channel._recent_queries ∧
      v._channel.deliver_log = w._channel.deliver_log := by
    rw [hv]
    unfold network_session.handle_read_header
    rcases hbad with he | hd
    · simp [he]
    · cases error <;> simp [hd]
  have hse : ∀ j, (v.sessions j)._write_queries = (w.sessions j)._write_queries ∧
      (v.sessions j).writes_started = (w.sessions j).writes_started ∧
      (v.sessions j).started = (w.sessions j).started ∧
      (j = self → (v.sessions j).read_pending = none) := by
    intro j
    rw [hv]
    unfold network_session.handle_read_header
    by_cases hj : j = self
    · subst hj
      rcases hbad with he | hd
      · simp [he, read_done_apply]
      · cases error
        · simp only [Bool.false_eq_true, if_false, hd]
          simp [read_done_apply, set_session_apply]
        · simp [read_done_apply]
    · rcases hbad with he | hd
      · simp [he, read_done_apply, hj]
      · cases error
        · simp only [Bool.false_eq_true, if_false, hd]
          simp [read_done_apply, set_session_apply, hj]
        · simp [read_done_apply, hj]
  have hnone := (hse self).2.2.2 rfl
  refine ⟨hch.1, ?_, hch.2.1, hch.2.2, fun j => (hse j).1, fun j => (hse j).2.1, hnone, ?_⟩
  · rw [hch.1, mem_set_erase]
    exact fun h => h.2 rfl
  · intro evs u hu
    exact (run_started_stable evs hu self (by rw [(hse self).2.2.1]; exact hst)).2.1 hnone

/-- Witness of C9: session 1 of a constructed server has been started and
its header read completes with the bytes `"9999"`. -/
theorem C9_read_error_closes_silently_witness :
    (Reachable (network_session.start 1
        (seeder_server.initial (fun _ => List.replicate 516 0))) ∧
      ((network_session.start 1
        (seeder_server.initial (fun _ => List.replicate 516 0))).sessions 1).read_pending =
        some read_op.header ∧
      ((read_done 1 0 [57, 57, 57, 57] (network_session.start 1
        (seeder_server.initial (fun _ => List.replicate 516 0)))).sessions
          1)._read_query.decode_header.1 = false) ∧
    1 ∉ (network_session.handle_read_header false 1
      (read_done 1 0 [57, 57, 57, 57] (network_session.start 1
        (seeder_server.initial (fun _ => List.replicate 516 0)))))._channel._participants :=
  ⟨⟨Reachable.step (io_event.accepted 1)
      (Reachable.init _ (fun _ => List.length_replicate _ _)) rfl, by decide, by decide⟩,
   (C9_read_error_closes_silently
      (network_session.start 1 (seeder_server.initial (fun _ => List.replicate 516 0)))
      _ 1 false [57, 57, 57, 57]
      (Reachable.step (io_event.accepted 1)
        (Reachable.init _ (fun _ => List.length_replicate _ _)) rfl)
      (by decide) rfl (Or.inr (by decide))).2.1⟩

theorem fire_of_left {u v : seeder_server} {e : io_event} (self : Nat)
    (hs : (u.sessions self).started = true) (he : e.session = self)
    (hd : delivers u e = false) (hf : fire u e = some v) :
    v._channel._recent_queries = u._channel._recent_queries ∧
    v._channel.deliver_log = u._channel.deliver_log ∧
    ∀ j, j ≠ self → (v.sessions j)._write_queries = (u.sessions j)._write_queries := by
  cases e with
  | accepted k =>
    simp only [io_event.session] at he
    subst he
    obtain ⟨hn, -⟩ := fire_accepted hf
    rw [hs] at hn
    exact absurd hn (by simp)
  | read_completed k error bytes =>
    simp only [io_event.session] at he
    subst he
    rcases fire_read_completed hf with ⟨hp, -, -, rfl⟩ | ⟨n, hp, -, -, rfl⟩
    · unfold network_session.handle_read_header
      refine ⟨?_, ?_, ?_⟩
      · cases error <;> simp
        split <;> simp
      · cases error <;> simp
        split <;> simp
      · intro j hj
        cases error <;> simp [read_done_apply, hj]
        split <;> simp [read_done_apply, hj, async_read_apply, set_session_apply]
    · have he : error = true := by
        cases error
        · simp [delivers, hp] at hd
        · rfl
      subst he
      simp [network_session.handle_read_body, read_done_apply]
      intro j hj
      simp [hj]
  | write_completed k error =>
    simp only [io_event.session] at he
    subst he
    obtain ⟨-, rfl⟩ := fire_write_completed hf
    unfold network_session.handle_write
    refine ⟨?_, ?_, ?_⟩
    · cases error <;> simp
    · cases error <;> simp
    · intro j hj
      cases error <;> simp [write_done_apply, set_session_apply, hj]

/-- C10 as stated fails: sessions 1 and 2 are started, session 2 reads the
frame `"   1a"` (delivered to both), then a write of session 2 fails and it
leaves the channel; its next header and body reads complete without error,
and `handle_read_body` still calls `network_channel::deliver`: the history
and the outbound queue of participant 1 gain the frame `"   1b"`. -/
theorem C10_counterexample :
    (run (seeder_server.initial (fun _ => List.replicate 516 0))
      [io_event.accepted 1, io_event.accepted 2,
        io_event.read_completed 2 false [32, 32, 32, 49],
        io_event.read_completed 2 false [97],
        io_event.write_completed 2 true]).map
      (fun u => (u._channel._participants, u._channel.deliver_log.length,
        u._channel._recent_queries.map network_query.frame,
        (u.sessions 1)._write_queries.map network_query.frame)) =
      some ([1], 1, [[32, 32, 32, 49, 97]], [[32, 32, 32, 49, 97]]) ∧
    (run (seeder_server.initial (fun _ => List.replicate 516 0))
      [io_event.accepted 1, io_event.accepted 2,
        io_event.read_completed 2 false [32, 32, 32, 49],
        io_event.read_completed 2 false [97],
        io_event.write_completed 2 true,
        io_event.read_completed 2 false [32, 32, 32, 49],
        io_event.read_completed 2 false [98]]).map
      (fun u => (u._channel._participants, u._channel.deliver_log.length,
        u._channel._recent_queries.map network_query.frame,
        (u.sessions 1)._write_queries.map network_query.frame)) =
      some ([1], 2, [[32, 32, 32, 49, 97], [32, 32, 32, 49, 98]],
        [[32, 32, 32, 49, 97], [32, 32, 32, 49, 98]]) := by
  constructor <;> rfl

/-- C10 (amended): once `handle_write` has run with an error on a session in
a reachable state, the session has left the channel and stays out of the
participant set; every later event of that session except a body read
completing without error leaves the history, the log of `deliver` calls and
every participant's outbound queue unchanged. -/
theorem C10_after_write_failure (w v : seeder_server) (self : Nat) (hw : Reachable w)
    (hf : fire w (io_event.write_completed self true) = some v) :
    self ∉ v._channel._participants ∧
    ∀ evs u, run v evs = some u →
      self ∉ u._channel._participants ∧
      ∀ e u2, e.session = self → delivers u e = false → fire u e = some u2 →
        u2._channel._recent_queries = u._channel._recent_queries ∧
        u2._channel.deliver_log = u._channel.deliver_log ∧
        ∀ j ∈ u._channel._participants,
          (u2.sessions j)._write_queries = (u.sessions j)._write_queries := by
  obtain ⟨hpos, hv⟩ := fire_write_completed hf
  have hst : (w.sessions self).started = true :=
    server_inv_started (reachable_inv hw) self (Or.inr (Or.inl hpos))
  have hst2 : (v.sessions self).started = true := (fire_started_stable hf self hst).1
  have hout : self ∉ v._channel._participants := by
    rw [hv]
    simp [network_session.handle_write, mem_set_erase]
  refine ⟨hout, ?_⟩
  intro evs u hu
  obtain ⟨k1, -, k3⟩ := run_started_stable evs hu self hst2
  refine ⟨k3 hout, ?_⟩
  intro e u2 he hd hf2
  obtain ⟨r1, r2, r3⟩ := fire_of_left self k1 he hd hf2
  refine ⟨r1, r2, ?_⟩
  intro j hj
  apply r3
  rintro rfl
  exact k3 hout hj

/-- Witness of the amended C10: session 1 of a constructed server is started
and reads the empty frame `"   0"`, which is delivered back to it, and then
its write fails. -/
theorem C10_after_write_failure_witness :
    (Reachable (network_session.handle_read_body false 1 (read_done 1 4 []
        (network_session.handle_read_header false 1 (read_done 1 0 [32, 32, 32, 48]
          (network_session.start 1
            (seeder_server.initial (fun _ => List.replicate 516 0))))))) ∧
      fire (network_session.handle_read_body false 1 (read_done 1 4 []
        (network_session.handle_read_header false 1 (read_done 1 0 [32, 32, 32, 48]
          (network_session.start 1
            (seeder_server.initial (fun _ => List.replicate 516 0)))))))
        (io_event.write_completed 1 true) =
      some (network_session.handle_write true 1 (write_done 1
        (network_session.handle_read_body false 1 (read_done 1 4 []
        (network_session.handle_read_header false 1 (read_done 1 0 [32, 32, 32, 48]
          (network_session.start 1
            (seeder_server.initial (fun _ => List.replicate 516 0)))))))))) ∧
    1 ∉ (network_session.handle_write true 1 (write_done 1
        (network_session.handle_read_body false 1 (read_done 1 4 []
        (network_session.handle_read_header false 1 (read_done 1 0 [32, 32, 32, 48]
          (network_session.start 1
            (seeder_server.initial (fun _ => List.replicate 516 0)))))))))._channel._participants :=
  ⟨⟨(Reachable.step (io_event.read_completed 1 false [])
      (Reachable.step (io_event.read_completed 1 false [32, 32, 32, 48])
        (Reachable.step (io_event.accepted 1)
          (Reachable.init _ (fun _ => List.length_replicate _ _)) rfl) rfl) rfl), rfl⟩,
   (C10_after_write_failure _ _ 1
      (Reachable.step (io_event.read_completed 1 false [])
      (Reachable.step (io_event.read_completed 1 false [32, 32, 32, 48])
        (Reachable.step (io_event.accepted 1)
          (Reachable.init _ (fun _ => List.length_replicate _ _)) rfl) rfl) rfl)
      rfl).1⟩

/-! ## The codec: header format and clamping -/

theorem decimal_aux_digits (fuel n : Nat) (acc : List Nat) (hf : n < fuel) (hn : 0 < n) :
    decimal_aux fuel n acc = ((Nat.digits 10 n).reverse.map (fun d => 48 + d)) ++ acc := by
  induction fuel generalizing n acc with
  | zero => omega
  | succ fuel ih =>
    by_cases h : n < 10
    · rw [decimal_aux_small _ _ _ h, Nat.digits_of_lt 10 n (by omega) h]
      simp
    · rw [decimal_aux_large _ _ _ (by omega), ih (n / 10) _ (by omega) (by omega)]
      rw [Nat.digits_def' (by norm_num) hn]
      simp

/-- The digits written for `n`: `"0"` for 0, and otherwise the base-10 digits
of `n`, most significant first. -/
theorem decimal_eq_digits (n : Nat) :
    decimal n =
      if n = 0 then [48] else (Nat.digits 10 n).reverse.map (fun d => 48 + d) := by
  unfold decimal
  by_cases h : n = 0
  · subst h
    simp [decimal_aux]
  · rw [if_neg h, decimal_aux_digits _ _ _ (by omega) (by omega)]
    simp

theorem decimal_length_le (n : Nat) (hn : n < 10000) : (decimal n).length ≤ 4 := by
  obtain ⟨k, ds, hk, -, -, hs, -⟩ := sprintf_4d_form n hn
  have h4 := sprintf_4d_length n hn
  unfold sprintf_4d at h4
  simp only [List.length_append, List.length_replicate] at h4
  omega

/-- C12: for `n ≤ 512`, after `body_length(n)` and `encode_header()` the
first 4 bytes are the decimal digits of `n` (`"0"` for 0) preceded by the
spaces needed to make 4 characters, e.g. `"   5"`, `" 512"`, `"   0"`, and
the body bytes and the size of the buffer are unchanged. -/
theorem C12_header_format (q : network_query) (n : Nat) (h : n ≤ 512) :
    ((q.set_body_length n).encode_header)._data.take 4 =
      List.replicate
        (4 - (if n = 0 then [48]
              else (Nat.digits 10 n).reverse.map (fun d => 48 + d)).length) 32 ++
        (if n = 0 then [48] else (Nat.digits 10 n).reverse.map (fun d => 48 + d)) ∧
    (((q.set_body_length n).encode_header)._data.take 4).length = 4 ∧
    ((q.set_body_length n).encode_header).body = q.body ∧
    (4 ≤ q._data.length →
      ((q.set_body_length n).encode_header)._data.length = q._data.length) ∧
    ((q.set_body_length 5).encode_header)._data.take 4 = [32, 32, 32, 53] ∧
    ((q.set_body_length 512).encode_header)._data.take 4 = [32, 53, 49, 50] ∧
    ((q.set_body_length 0).encode_header)._data.take 4 = [32, 32, 32, 48] := by
  have hs : ∀ m, m ≤ 512 → (q.set_body_length m)._body_length = m := by
    intro m hm
    simp [network_query.set_body_length, Nat.not_lt.mpr hm]
  have hd : ∀ m, (q.set_body_length m)._data = q._data := by
    intro m
    unfold network_query.set_body_length
    simp only
    split <;> rfl
  have ht : ∀ m, m ≤ 512 →
      ((q.set_body_length m).encode_header)._data.take 4 = sprintf_4d m := by
    intro m hm
    have := take_memcpy_header (q.set_body_length m)._data (sprintf_4d m)
      (sprintf_4d_length m (by omega))
    simpa [network_query.encode_header, hs m hm] using this
  have hlen := sprintf_4d_length n (by omega)
  refine ⟨?_, ?_, ?_, ?_, ?_, ?_, ?_⟩
  · rw [ht n h, ← decimal_eq_digits]
    rfl
  · rw [ht n h, hlen]
  · simp only [network_query.body, network_query.encode_header, memcpy, header_length, hs n h,
      hd]
    have h4 : ((sprintf_4d n).take 4).length = 4 := by
      rw [List.take_of_length_le (le_of_eq hlen), hlen]
    rw [List.drop_append_of_le_length (le_of_eq h4.symm), List.drop_of_length_le (le_of_eq h4),
      List.nil_append]
  · intro h4
    simp only [network_query.encode_header, memcpy, header_length, hs n h, hd,
      List.length_append, List.length_take, List.length_drop, hlen]
    omega
  · rw [ht 5 (by omega)]; decide
  · rw [ht 512 (by omega)]; decide
  · rw [ht 0 (by omega)]; decide

/-- Witness of C12 at `n = 37` on a zeroed buffer. -/
theorem C12_header_format_witness :
    37 ≤ 512 ∧
    (((network_query.mk (List.replicate 516 0) 0).set_body_length 37).encode_header)._data.take 4
      = List.replicate
        (4 - (if 37 = 0 then [48]
              else (Nat.digits 10 37).reverse.map (fun d => 48 + d)).length) 32 ++
        (if 37 = 0 then [48] else (Nat.digits 10 37).reverse.map (fun d => 48 + d)) :=
  ⟨by decide, (C12_header_format (network_query.mk (List.replicate 516 0) 0) 37 (by decide)).1⟩

/-- C13: for every requested length `n`, after `body_length(n)` the message
has `body_length() == min(n, 512)` and `length() == 4 + min(n, 512)`; the
buffer is not touched. -/
theorem C13_encode_side_clamping (q : network_query) (n : Nat) :
    (q.set_body_length n).body_length = min n 512 ∧
    (q.set_body_length n).length = 4 + min n 512 ∧
    (q.set_body_length n)._data = q._data := by
  unfold network_query.set_body_length network_query.body_length network_query.length
  simp only [max_body_length, header_length]
  by_cases h : n > 512
  · rw [if_pos h]
    exact ⟨by simp only []; omega, by simp only []; omega, rfl⟩
  · rw [if_neg h]
    exact ⟨by simp only []; omega, by simp only []; omega, rfl⟩

/-! ## The codec: malformed and negative headers -/

theorem skip_space_of_all_space (ws l : List Nat) (h : ∀ c ∈ ws, isspace c = true) :
    skip_space (ws ++ l) = skip_space l := by
  induction ws with
  | nil => rfl
  | cons c ws ih =>
    have hc : isspace c = true := h c (by simp)
    simp only [List.cons_append, skip_space, hc, if_true]
    exact ih (fun x hx => h x (by simp [hx]))

theorem parse_digits_not_digit (acc : Nat) (l : List Nat)
    (h : l = [] ∨ ∃ c cs, l = c :: cs ∧ isdigit c = false) : parse_digits acc l = acc := by
  rcases h with rfl | ⟨c, cs, rfl, hc⟩
  · rfl
  · simp [parse_digits, hc]

/-- The C library `atoi` yields 0 on a string that, after its leading white
space and an optional sign, does not start with a digit. -/
theorem atoi_non_numeric (ws sg rest : List Nat) (hws : ∀ c ∈ ws, isspace c = true)
    (hsg : sg = [] ∨ sg = [43] ∨ sg = [45])
    (hrest : rest = [] ∨ ∃ c cs, rest = c :: cs ∧ isdigit c = false ∧
      (sg = [] → isspace c = false ∧ c ≠ 43 ∧ c ≠ 45)) :
    atoi (ws ++ sg ++ rest) = 0 := by
  have hp : parse_digits 0 rest = 0 := by
    apply parse_digits_not_digit
    rcases hrest with h | ⟨c, cs, h1, h2, -⟩
    · exact Or.inl h
    · exact Or.inr ⟨c, cs, h1, h2⟩
  unfold atoi
  rw [List.append_assoc, skip_space_of_all_space _ _ hws]
  rcases hsg with rfl | rfl | rfl
  · rcases hrest with rfl | ⟨c, cs, rfl, hd, hc⟩
    · simp [skip_space, parse_digits]
    · obtain ⟨h1, h2, h3⟩ := hc rfl
      simp only [List.nil_append, skip_space, h1]
      split
      · rename_i heq
        simp at heq
        exact absurd heq.1 h3
      · rename_i heq
        simp at heq
        exact absurd heq.1 h2
      · simp [parse_digits, hd]
  · have : skip_space ([43] ++ rest) = 43 :: rest := by
      simp [skip_space, isspace]
    rw [this]
    simp [hp]
  · have : skip_space ([45] ++ rest) = 45 :: rest := by
      simp [skip_space, isspace]
    rw [this]
    simp [hp]

theorem takeWhile_non_numeric (ws sg rest : List Nat) (hws : ∀ c ∈ ws, isspace c = true)
    (hsg : sg = [] ∨ sg = [43] ∨ sg = [45])
    (hrest : rest = [] ∨ ∃ c cs, rest = c :: cs ∧ isdigit c = false ∧
      (sg = [] → isspace c = false ∧ c ≠ 43 ∧ c ≠ 45)) :
    ∃ rest2, (ws ++ sg ++ rest).takeWhile (fun c => c != 0) = ws ++ sg ++ rest2 ∧
      (rest2 = [] ∨ ∃ c cs, rest2 = c :: cs ∧ isdigit c = false ∧
        (sg = [] → isspace c = false ∧ c ≠ 43 ∧ c ≠ 45)) := by
  have h1 : ∀ a ∈ ws ++ sg, (fun c => c != 0) a = true := by
    intro a ha
    rcases List.mem_append.mp ha with h | h
    · have := hws a h
      simp only [bne_iff_ne, ne_eq]
      rintro rfl
      simp [isspace] at this
    · rcases hsg with rfl | rfl | rfl <;> simp at h <;> simp [h]
  refine ⟨rest.takeWhile (fun c => c != 0), ?_, ?_⟩
  · rw [List.takeWhile_append_of_pos h1]
  · rcases hrest with rfl | ⟨c, cs, rfl, hd, hc⟩
    · exact Or.inl rfl
    · by_cases h0 : c = 0
      · left
        simp [List.takeWhile, h0]
      · right
        have hne : (c != 0) = true := by simpa using h0
        exact ⟨c, cs.takeWhile (fun c => c != 0), by rw [List.takeWhile_cons, if_pos hne],
          hd, hc⟩

/-- C14 as stated fails: the header `"12ab"` is malformed, and
`decode_header()` returns `true` with `body_length() == 12`, not 0; the
malformed header `"999a"` makes `decode_header()` return `false`. -/
theorem C14_counterexample :
    (network_query.mk ([49, 50, 97, 98] ++ List.replicate 512 0) 0).decode_header.1 = true ∧
    (network_query.mk ([49, 50, 97, 98] ++ List.replicate 512 0)
      0).decode_header.2.body_length = 12 ∧
    (network_query.mk ([57, 57, 57, 97] ++ List.replicate 512 0) 0).decode_header.1 = false := by
  decide

/-- C14 (amended): for every 4-byte header that, after leading white space
(`ws`) and an optional sign (`sg`), does not start with a decimal digit (the
remainder `rest` is empty or starts with a character that is not a digit),
`decode_header()` returns `true` and sets `body_length()` to 0. -/
theorem C14_non_numeric_header_parses_to_zero (q : network_query) (ws sg rest : List Nat)
    (hq : q._data.take 4 = ws ++ sg ++ rest) (hws : ∀ c ∈ ws, isspace c = true)
    (hsg : sg = [] ∨ sg = [43] ∨ sg = [45])
    (hrest : rest = [] ∨ ∃ c cs, rest = c :: cs ∧ isdigit c = false ∧
      (sg = [] → isspace c = false ∧ c ≠ 43 ∧ c ≠ 45)) :
    q.decode_header.1 = true ∧ q.decode_header.2.body_length = 0 ∧
    q.decode_header.2._data = q._data := by
  obtain ⟨rest2, h1, h2⟩ := takeWhile_non_numeric ws sg rest hws hsg hrest
  have h3 := atoi_non_numeric ws sg rest2 hws hsg h2
  have h4 : atoi (strncat [] q._data header_length) = 0 := by
    unfold strncat
    rw [List.nil_append]
    simp only [header_length]
    rw [hq, h1, h3]
  unfold network_query.decode_header
  simp only [h4, size_t_of_int]
  simp [network_query.body_length]

/-- Witness of the amended C14 at the header `" +ab"`. -/
theorem C14_non_numeric_header_parses_to_zero_witness :
    ((network_query.mk ([32, 43, 97, 98] ++ List.replicate 512 0) 7)._data.take 4 =
        [32] ++ [43] ++ [97, 98] ∧
      (∀ c ∈ [32], isspace c = true) ∧
      (([43] : List Nat) = [] ∨ ([43] : List Nat) = [43] ∨ ([43] : List Nat) = [45]) ∧
      (([97, 98] : List Nat) = [] ∨ ∃ c cs, ([97, 98] : List Nat) = c :: cs ∧
        isdigit c = false ∧ (([43] : List Nat) = [] → isspace c = false ∧ c ≠ 43 ∧ c ≠ 45))) ∧
    ((network_query.mk ([32, 43, 97, 98] ++ List.replicate 512 0) 7).decode_header.1 = true ∧
      (network_query.mk ([32, 43, 97, 98] ++ List.replicate 512 0)
        7).decode_header.2.body_length = 0 ∧
      (network_query.mk ([32, 43, 97, 98] ++ List.replicate 512 0) 7).decode_header.2._data =
        (network_query.mk ([32, 43, 97, 98] ++ List.replicate 512 0) 7)._data) :=
  ⟨⟨by decide, by decide, by decide,
      Or.inr ⟨97, [98], rfl, by decide, fun h => absurd h (by decide)⟩⟩,
   C14_non_numeric_header_parses_to_zero _ [32] [43] [97, 98] (by decide) (by decide)
     (by decide) (Or.inr ⟨97, [98], rfl, by decide, fun h => absurd h (by decide)⟩)⟩

theorem parse_digits_lt (l : List Nat) (acc : Nat) :
    parse_digits acc l < (acc + 1) * 10 ^ l.length := by
  induction l generalizing acc with
  | nil => simp [parse_digits]
  | cons c cs ih =>
    unfold parse_digits
    split
    · rename_i hc
      have hc2 : c - 48 ≤ 9 := by
        simp [isdigit] at hc
        omega
      calc parse_digits (acc * 10 + (c - 48)) cs
          < (acc * 10 + (c - 48) + 1) * 10 ^ cs.length := ih _
        _ ≤ ((acc + 1) * 10) * 10 ^ cs.length :=
            Nat.mul_le_mul_right _ (by omega)
        _ = (acc + 1) * 10 ^ (c :: cs).length := by
            rw [List.length_cons, pow_succ]; ring
    · have : 1 ≤ 10 ^ (c :: cs).length := Nat.one_le_pow _ _ (by norm_num)
      calc acc < (acc + 1) * 1 := by omega
        _ ≤ (acc + 1) * 10 ^ (c :: cs).length := Nat.mul_le_mul_left _ this

theorem skip_space_length_le (l : List Nat) : (skip_space l).length ≤ l.length := by
  induction l with
  | nil => simp [skip_space]
  | cons c cs ih =>
    unfold skip_space
    split
    · simp only [List.length_cons]; omega
    · exact le_refl _

/-- The C library `atoi` on at most four characters stays above -10000. -/
theorem atoi_lower_bound (s : List Nat) (h : s.length ≤ 4) : -10000 < atoi s := by
  have hl := skip_space_length_le s
  unfold atoi
  split
  · rename_i cs heq
    rw [heq] at hl
    simp only [List.length_cons] at hl
    have h1 := parse_digits_lt cs 0
    have h2 : 10 ^ cs.length ≤ 10 ^ 3 := Nat.pow_le_pow_right (by norm_num) (by omega)
    omega
  · have := Int.ofNat_nonneg (parse_digits 0 (by assumption))
    omega
  · have := Int.ofNat_nonneg (parse_digits 0 (by assumption))
    omega

theorem strncat_nil_length_le (src : List Nat) (n : Nat) : (strncat [] src n).length ≤ n := by
  unfold strncat
  rw [List.nil_append]
  exact le_trans (List.takeWhile_sublist _).length_le (List.length_take_le _ _)

/-- When `decode_header()` returns `false` it has set the body length to 0;
in every case the body length afterwards is at most `max_body_length` and
the buffer is unchanged. -/
theorem decode_header_result (q : network_query) :
    (q.decode_header.1 = false → q.decode_header.2._body_length = 0) ∧
    q.decode_header.2._body_length ≤ max_body_length ∧
    q.decode_header.2._data = q._data := by
  unfold network_query.decode_header
  simp only
  split
  · exact ⟨fun _ => rfl, Nat.zero_le _, rfl⟩
  · rename_i h
    exact ⟨fun h2 => absurd h2 (by simp), Nat.not_lt.mp h, rfl⟩

/-- C19: for every header whose text `atoi` parses to a negative integer,
the conversion to `size_t` gives a value above 512, so `decode_header()`
returns `false` and leaves `body_length() == 0`, e.g. for `" -12"` and
`"-999"`; and whenever `decode_header()` returns `false`, `body_length()` is
0 afterwards. -/
theorem C19_negative_header_rejected (q : network_query)
    (hneg : atoi (strncat [] q._data header_length) < 0) :
    512 < size_t_of_int (atoi (strncat [] q._data header_length)) ∧
    q.decode_header.1 = false ∧ q.decode_header.2.body_length = 0 ∧
    (∀ r : network_query, r.decode_header.1 = false → r.decode_header.2.body_length = 0) ∧
    (∀ buf n, (network_query.mk ([32, 45, 49, 50] ++ buf) n).decode_header.1 = false ∧
      (network_query.mk ([45, 57, 57, 57] ++ buf) n).decode_header.1 = false) := by
  have hlow := atoi_lower_bound _ (strncat_nil_length_le q._data header_length)
  have hbig : 512 < size_t_of_int (atoi (strncat [] q._data header_length)) := by
    unfold size_t_of_int
    omega
  have hdec : q.decode_header = (false, { q with _body_length := 0 }) := by
    unfold network_query.decode_header
    simp only [max_body_length]
    rw [if_pos hbig]
  refine ⟨hbig, ?_, ?_, ?_, ?_⟩
  · rw [hdec]
  · rw [hdec]; rfl
  · intro r hr
    exact (decode_header_result r).1 hr
  · intro buf n
    constructor <;> rfl

/-- Witness of C19 at the header `" -12"`. -/
theorem C19_negative_header_rejected_witness :
    atoi (strncat [] (network_query.mk ([32, 45, 49, 50] ++ List.replicate 512 0) 7)._data
      header_length) < 0 ∧
    (network_query.mk ([32, 45, 49, 50] ++ List.replicate 512 0) 7).decode_header.1 = false ∧
    (network_query.mk ([32, 45, 49, 50] ++ List.replicate 512 0)
      7).decode_header.2.body_length = 0 :=
  ⟨by decide,
   (C19_negative_header_rejected
      (network_query.mk ([32, 45, 49, 50] ++ List.replicate 512 0) 7) (by decide)).2.1,
   (C19_negative_header_rejected
      (network_query.mk ([32, 45, 49, 50] ++ List.replicate 512 0) 7) (by decide)).2.2.1⟩

/-! ## The channel: leave and join; the write side without failures -/

/-- C16: `network_channel::leave(p)` yields the old participant set minus
`p`, leaves the history (and the log of deliveries) unchanged and changes no
session; when `p` is not a member the whole state is unchanged. -/
theorem C16_leave_is_pure_removal (w : seeder_server) (p : Nat) :
    (∀ j, j ∈ (network_channel.leave p w)._channel._participants ↔
      j ∈ w._channel._participants ∧ j ≠ p) ∧
    (w._channel._participants.Nodup →
      (network_channel.leave p w)._channel._participants.Nodup) ∧
    (network_channel.leave p w)._channel._recent_queries = w._channel._recent_queries ∧
    (network_channel.leave p w)._channel.deliver_log = w._channel.deliver_log ∧
    (network_channel.leave p w).sessions = w.sessions ∧
    (p ∉ w._channel._participants → network_channel.leave p w = w) := by
  refine ⟨fun j => mem_set_erase p j _, nodup_set_erase p _, rfl, rfl, rfl, ?_⟩
  intro hp
  unfold network_channel.leave
  rw [set_erase_of_not_mem p _ hp]

/-- C17: `network_channel::join(p)` leaves the history (and the log of
deliveries) unchanged, changes no session other than `p`, appends the history
to the queue of `p`, and yields the old participant set with `p` added: the
same set when `p` was already a member. -/
theorem C17_join_replays_to_joiner_only (w : seeder_server) (p : Nat) :
    (network_channel.join p w)._channel._recent_queries = w._channel._recent_queries ∧
    (network_channel.join p w)._channel.deliver_log = w._channel.deliver_log ∧
    (∀ j, j ≠ p → (network_channel.join p w).sessions j = w.sessions j) ∧
    ((network_channel.join p w).sessions p)._write_queries =
      (w.sessions p)._write_queries ++ w._channel._recent_queries ∧
    (∀ j, j ∈ (network_channel.join p w)._channel._participants ↔
      j = p ∨ j ∈ w._channel._participants) ∧
    (w._channel._participants.Nodup →
      (network_channel.join p w)._channel._participants.Nodup) ∧
    (p ∈ w._channel._participants →
      (network_channel.join p w)._channel._participants = w._channel._participants) := by
  refine ⟨channel_join_recent p w, channel_join_log p w,
    fun j hj => channel_join_other p j w hj, ?_, ?_, ?_, ?_⟩
  · rw [channel_join_self, foldl_deliver_queue]
  · intro j
    rw [channel_join_participants]
    exact mem_set_insert p j _
  · intro h
    rw [channel_join_participants]
    exact nodup_set_insert p _ h
  · intro h
    rw [channel_join_participants]
    unfold set_insert
    rw [if_pos h]

/-- C18: in every state a freshly constructed session reaches by calls of
`network_session::deliver` and write completions without error, a write is
outstanding if and only if the outbound queue is non-empty (and then exactly
one is), and the last write started is for the message at the front of the
queue. -/
theorem C18_no_message_stranded (buf : List Nat) (evs : List write_event)
    (s : network_session) (h : write_run (network_session.fresh buf) evs = some s) :
    (0 < s.writes_in_flight ↔ s._write_queries ≠ []) ∧
    s.writes_in_flight ≤ 1 ∧
    (∀ q rest, s._write_queries = q :: rest → s.writes_started.getLast? = some q) := by
  have hinv := write_inv_run evs (network_session.fresh buf) s []
    ⟨fun _ => ⟨rfl, rfl⟩, fun q rest hq => by simp [network_session.fresh] at hq⟩ h
  cases hq : s._write_queries with
  | nil =>
    have h0 := (hinv.1 hq).1
    refine ⟨?_, by omega, ?_⟩
    · simp [h0]
    · intro q rest hqr
      exact absurd hqr (by simp)
  | cons q rest =>
    obtain ⟨h1, pre, hb, -⟩ := hinv.2 q rest hq
    refine ⟨?_, by omega, ?_⟩
    · simp [h1]
    · intro q2 rest2 hqr
      simp only [List.cons.injEq] at hqr
      rw [hb, ← hqr.1]
      simp

/-- Witness of C18: two deliveries and one completion on a fresh session. -/
theorem C18_no_message_stranded_witness :
    (0 < (network_session.mk (network_query.mk [] 0)
        [network_query.mk [32, 32, 32, 49, 98] 1] false none 1
        [network_query.mk [32, 32, 32, 49, 97] 1,
          network_query.mk [32, 32, 32, 49, 98] 1]).writes_in_flight ↔
      (network_session.mk (network_query.mk [] 0)
        [network_query.mk [32, 32, 32, 49, 98] 1] false none 1
        [network_query.mk [32, 32, 32, 49, 97] 1,
          network_query.mk [32, 32, 32, 49, 98] 1])._write_queries ≠ []) :=
  (C18_no_message_stranded [] [write_event.deliver (network_query.mk [32, 32, 32, 49, 97] 1),
        write_event.deliver (network_query.mk [32, 32, 32, 49, 98] 1),
        write_event.completed] _ rfl).1

/-! ## Messages and sessions: what every event keeps -/

theorem decode_header_eq (q : network_query) :
    q.decode_header =
      if size_t_of_int (atoi (strncat [] q._data header_length)) > max_body_length then
        (false, { q with _body_length := 0 })
      else
        (true, { q with
          _body_length := size_t_of_int (atoi (strncat [] q._data header_length)) }) := rfl

/-- Decoding depends only on the first four bytes of the buffer. -/
theorem decode_header_congr (q r : network_query) (h : r._data.take 4 = q._data.take 4)
    (hb : r._body_length = q._body_length) (hq : q.decode_header = (true, q)) :
    r.decode_header = (true, r) := by
  have hs : strncat [] r._data header_length = strncat [] q._data header_length := by
    unfold strncat
    simp only [header_length]
    rw [h]
  rw [decode_header_eq] at hq ⊢
  rw [hs]
  split at hq
  · simp at hq
  · rename_i hle
    rw [if_neg hle]
    simp only [Prod.mk.injEq, true_and] at hq ⊢
    have := congrArg network_query._body_length hq
    simp only at this
    cases r
    simp only at hb
    simp only [network_query.mk.injEq, true_and]
    rw [this, hb]

/-- Decoding an accepted header again accepts it and changes nothing. -/
theorem decode_header_idem (q : network_query) (h : q.decode_header.1 = true) :
    q.decode_header.2.decode_header = (true, q.decode_header.2) := by
  have e : q.decode_header = (true, { q with
      _body_length := size_t_of_int (atoi (strncat [] q._data header_length)) }) ∧
      ¬ size_t_of_int (atoi (strncat [] q._data header_length)) > max_body_length := by
    rw [decode_header_eq] at h ⊢
    split at h
    · simp at h
    · rename_i hle
      rw [if_neg hle]
      exact ⟨rfl, hle⟩
  rw [e.1]
  simp only
  rw [decode_header_eq]
  simp only
  rw [if_neg e.2]

theorem write_at_length (buf bytes : List Nat) (off : Nat)
    (h : off + bytes.length ≤ buf.length) : (write_at buf off bytes).length = buf.length := by
  unfold write_at
  simp only [List.length_append, List.length_take, List.length_drop]
  omega

theorem write_at_take (buf bytes : List Nat) (off : Nat) (h : off ≤ buf.length) :
    (write_at buf off bytes).take off = buf.take off := by
  unfold write_at
  have hl : (buf.take off).length = off := by
    rw [List.length_take]; omega
  rw [List.append_assoc, List.take_append_of_le_length (le_of_eq hl.symm),
    List.take_of_length_le (le_of_eq hl)]

theorem session_ok_fresh (buf : List Nat) (h : buf.length = data_size) :
    session_ok (network_session.fresh buf) := by
  refine ⟨h, Nat.zero_le _, ?_, ?_, ?_, Nat.zero_le _, ?_⟩
  · intro n hn; simp [network_session.fresh] at hn
  · intro m hm; simp [network_session.fresh] at hm
  · intro m hm; simp [network_session.fresh] at hm
  · intro h1; simp [network_session.fresh] at h1

theorem session_ok_deliver (q : network_query) (hq : query_ok q) (s : network_session)
    (hs : session_ok s) : session_ok (s.deliver q) := by
  obtain ⟨h1, h2, h3, h4, h5, h6, h7⟩ := hs
  have hmem : ∀ m ∈ s._write_queries ++ [q], query_ok m := by
    intro m hm
    rcases List.mem_append.mp hm with h | h
    · exact h4 m h
    · simp at h; rw [h]; exact hq
  cases hqs : s._write_queries with
  | nil =>
    have h0 : s.writes_in_flight = 0 := by
      by_contra hne
      exact h7 (by omega) hqs
    refine ⟨by simpa using h1, by simpa using h2, by simpa using h3, ?_, ?_, ?_, ?_⟩
    · simpa using hmem
    · intro m hm
      simp [network_session.deliver, async_write_front, hqs] at hm
      rcases hm with h | h
      · exact h5 m h
      · rw [h]; exact hq
    · simp [network_session.deliver, async_write_front, hqs, h0]
    · intro _
      simp
  | cons a rest =>
    refine ⟨by simpa using h1, by simpa using h2, by simpa using h3, ?_, ?_, ?_, ?_⟩
    · simpa using hmem
    · intro m hm
      simp [network_session.deliver, hqs] at hm
      exact h5 m hm
    · simpa [network_session.deliver, hqs] using h6
    · intro _
      simp

theorem session_ok_write_failed (s : network_session) (hs : session_ok s)
    (hpos : 0 < s.writes_in_flight) :
    session_ok { s with writes_in_flight := s.writes_in_flight - 1 } := by
  obtain ⟨h1, h2, h3, h4, h5, h6, h7⟩ := hs
  refine ⟨h1, h2, h3, h4, h5, ?_, ?_⟩
  · simp only; omega
  · simp only; intro h; omega

theorem session_ok_write_next (s : network_session) (hs : session_ok s)
    (hpos : 0 < s.writes_in_flight) :
    session_ok ({ s with writes_in_flight := s.writes_in_flight - 1 }).write_next := by
  obtain ⟨h1, h2, h3, h4, h5, h6, h7⟩ := hs
  have h0 : s.writes_in_flight - 1 = 0 := by omega
  have htail : ∀ m ∈ s._write_queries.tail, query_ok m :=
    fun m hm => h4 m (List.mem_of_mem_tail hm)
  refine ⟨by simpa using h1, by simpa using h2, by simpa using h3, by simpa using htail,
    ?_, ?_, ?_⟩
  · intro m hm
    cases ht : s._write_queries.tail with
    | nil =>
      simp [network_session.write_next, ht] at hm
      exact h5 m hm
    | cons a rest =>
      simp [network_session.write_next, async_write_front, ht] at hm
      rcases hm with h | h
      · exact h5 m h
      · rw [h]; exact htail a (by rw [ht]; simp)
  · cases ht : s._write_queries.tail with
    | nil => simp [network_session.write_next, ht, h0]
    | cons a rest => simp [network_session.write_next, async_write_front, ht, h0]
  · intro hone
    cases ht : s._write_queries.tail with
    | nil => simp [network_session.write_next, ht, h0] at hone
    | cons a rest => simp [ht]

/-- A property of sessions kept by `network_session::deliver` of `q` is kept
by the fan-out loop. -/
theorem fan_out_pred (P : network_session → Prop) (q : network_query)
    (hP : ∀ s, P s → P (network_session.deliver q s)) (l : List Nat) (w : seeder_server)
    (hw : ∀ j, P (w.sessions j)) (j : Nat) :
    P ((l.foldl (fun v p => network_participant.deliver p q v) w).sessions j) := by
  induction l generalizing w with
  | nil => exact hw j
  | cons p l ih =>
    rw [List.foldl_cons]
    apply ih
    intro k
    rw [participant_deliver_apply]
    split
    · exact hP _ (hw p)
    · exact hw k

/-- A property of sessions kept by `network_session::deliver` of every
message of the history is kept by the replay loop. -/
theorem replay_pred (P : network_session → Prop) (h : List network_query)
    (hP : ∀ q ∈ h, ∀ s, P s → P (network_session.deliver q s)) (p : Nat) (w : seeder_server)
    (hw : ∀ j, P (w.sessions j)) (j : Nat) :
    P ((h.foldl (fun v q => network_participant.deliver p q v) w).sessions j) := by
  induction h generalizing w with
  | nil => exact hw j
  | cons q h ih =>
    rw [List.foldl_cons]
    apply ih (fun r hr => hP r (by simp [hr]))
    intro k
    rw [participant_deliver_apply]
    split
    · exact hP q (by simp) _ (hw p)
    · exact hw k

theorem server_ok_deliver (q : network_query) (hq : query_ok q) (w : seeder_server)
    (hw : server_ok w) : server_ok (network_channel.deliver q w) := by
  refine ⟨?_, ?_⟩
  · intro m hm
    rw [channel_deliver_recent, evict_eq_drop] at hm
    rcases List.mem_append.mp (List.mem_of_mem_drop hm) with h | h
    · exact hw.1 m h
    · simp at h; rw [h]; exact hq
  · intro i
    unfold network_channel.deliver
    simp only
    refine fan_out_pred session_ok q (session_ok_deliver q hq) _ _ ?_ i
    exact hw.2

theorem server_ok_join (p : Nat) (w : seeder_server) (hw : server_ok w) :
    server_ok (network_channel.join p w) := by
  refine ⟨?_, ?_⟩
  · intro m hm
    rw [channel_join_recent] at hm
    exact hw.1 m hm
  · intro i
    unfold network_channel.join
    simp only
    refine replay_pred session_ok _ (fun q hq => session_ok_deliver q (hw.1 q hq)) _ _ ?_ i
    exact hw.2

theorem server_ok_leave (p : Nat) (w : seeder_server) (hw : server_ok w) :
    server_ok (network_channel.leave p w) := hw

theorem server_ok_set_session (self : Nat) (s : network_session) (w : seeder_server)
    (hw : server_ok w) (hs : session_ok s) : server_ok (w.set_session self s) := by
  refine ⟨hw.1, ?_⟩
  intro i
  rw [set_session_apply]
  split
  · exact hs
  · exact hw.2 i

theorem server_ok_initial (mem : Nat → List Nat) (h : ∀ i, (mem i).length = data_size) :
    server_ok (seeder_server.initial mem) := by
  refine ⟨?_, fun i => session_ok_fresh _ (h i)⟩
  intro m hm
  simp [seeder_server.initial] at hm

theorem server_ok_fire {w v : seeder_server} {e : io_event} (hw : server_ok w)
    (h : fire w e = some v) : server_ok v := by
  cases e with
  | accepted self =>
    obtain ⟨-, rfl⟩ := fire_accepted h
    unfold network_session.start async_read
    simp only
    apply server_ok_set_session
    · apply server_ok_join
      apply server_ok_set_session _ _ _ hw
      exact hw.2 self
    · have hj : server_ok (network_channel.join self
          (w.set_session self { w.sessions self with started := true })) := by
        apply server_ok_join
        apply server_ok_set_session _ _ _ hw
        exact hw.2 self
      obtain ⟨h1, h2, -, h4, h5, h6, h7⟩ := hj.2 self
      exact ⟨h1, h2, fun n hn => by simp at hn, h4, h5, h6, h7⟩
  | read_completed self error bytes =>
    obtain ⟨h1, h2, h3, h4, h5, h6, h7⟩ := hw.2 self
    rcases fire_read_completed h with ⟨hp, hlen, -, rfl⟩ | ⟨n, hp, hlen, -, rfl⟩
    · have hl : (write_at (w.sessions self)._read_query._data 0 bytes).length = data_size := by
        rw [write_at_length _ _ _ (by simp only [header_length, data_size] at *; omega)]
        exact h1
      have hd : server_ok (read_done self 0 bytes w) := by
        unfold read_done
        simp only
        apply server_ok_set_session _ _ _ hw
        exact ⟨hl, h2, fun n hn => by simp at hn, h4, h5, h6, h7⟩
      unfold network_session.handle_read_header
      by_cases herr : error = true
      · rw [if_pos herr]
        exact server_ok_leave _ _ hd
      · rw [if_neg herr]
        simp only []
        have hres := decode_header_result ((read_done self 0 bytes w).sessions self)._read_query
        obtain ⟨g1, g2, -, g4, g5, g6, g7⟩ := hd.2 self
        by_cases hok : ((read_done self 0 bytes w).sessions self)._read_query.decode_header.1
            = true
        · rw [if_pos hok]
          unfold async_read
          apply server_ok_set_session
          · apply server_ok_set_session _ _ _ hd
            exact ⟨by rw [hres.2.2]; exact g1, hres.2.1, fun n hn => by simp [read_done_apply] at hn,
              g4, g5, g6, g7⟩
          · refine ⟨by simpa using (by rw [hres.2.2]; exact g1), by simpa using hres.2.1, ?_,
              by simpa using g4, by simpa using g5, by simpa using g6, by simpa using g7⟩
            intro n hn
            simp only [set_session_same, Option.some.injEq, read_op.body.injEq] at hn
            refine ⟨by simpa [network_query.body_length] using hn.symm, ?_⟩
            simpa using decode_header_idem _ hok
        · rw [if_neg hok]
          apply server_ok_leave
          apply server_ok_set_session _ _ _ hd
          exact ⟨by rw [hres.2.2]; exact g1, hres.2.1, fun n hn => by simp [read_done_apply] at hn,
            g4, g5, g6, g7⟩
    · obtain ⟨hn1, hn2⟩ := h3 n hp
      have hoff : header_length + bytes.length ≤ (w.sessions self)._read_query._data.length := by
        simp only [header_length, data_size, max_body_length] at *
        omega
      have hl : (write_at (w.sessions self)._read_query._data header_length bytes).length =
          data_size := by
        rw [write_at_length _ _ _ hoff]
        exact h1
      have hq : query_ok { (w.sessions self)._read_query with
          _data := write_at (w.sessions self)._read_query._data header_length bytes } := by
        refine ⟨hl, h2, ?_⟩
        exact decode_header_congr (w.sessions self)._read_query
          ⟨write_at (w.sessions self)._read_query._data header_length bytes,
            (w.sessions self)._read_query._body_length⟩
          (write_at_take _ _ 4 (by simp only [header_length] at hoff; omega)) rfl hn2
      have hd : server_ok (read_done self header_length bytes w) := by
        unfold read_done
        simp only
        apply server_ok_set_session _ _ _ hw
        exact ⟨hl, h2, fun n hn => by simp at hn, h4, h5, h6, h7⟩
      unfold network_session.handle_read_body
      split
      · unfold async_read
        have hq2 : query_ok ((read_done self header_length bytes w).sessions self)._read_query := by
          simpa [read_done_apply] using hq
        have hdel := server_ok_deliver _ hq2 _ hd
        apply server_ok_set_session _ _ _ hdel
        obtain ⟨g1, g2, -, g4, g5, g6, g7⟩ := hdel.2 self
        exact ⟨g1, g2, fun n hn => by simp at hn, g4, g5, g6, g7⟩
      · exact server_ok_leave _ _ hd
  | write_completed self error =>
    obtain ⟨hpos, rfl⟩ := fire_write_completed h
    have hd : server_ok (write_done self w) := by
      unfold write_done
      simp only
      apply server_ok_set_session _ _ _ hw
      exact session_ok_write_failed _ (hw.2 self) hpos
    unfold network_session.handle_write
    split
    · apply server_ok_set_session _ _ _ hd
      simp only [write_done_apply, if_pos]
      exact session_ok_write_next _ (hw.2 self) hpos
    · exact server_ok_leave _ _ hd

theorem reachable_ok {w : seeder_server} (hw : Reachable w) : server_ok w := by
  induction hw with
  | init mem h => exact server_ok_initial mem h
  | step e _ he ih => exact server_ok_fire ih he

/-! ## The write side with failures; buffer bounds; relayed headers -/

theorem flight_deliver (q : network_query) (s : network_session)
    (h : s.writes_in_flight ≤ 1 ∧ (s.writes_in_flight = 1 → s._write_queries ≠ [])) :
    (s.deliver q).writes_in_flight ≤ 1 ∧
      ((s.deliver q).writes_in_flight = 1 → (s.deliver q)._write_queries ≠ []) := by
  refine ⟨?_, fun _ => by simp⟩
  cases hqs : s._write_queries with
  | nil =>
    have h0 : s.writes_in_flight = 0 := by
      by_contra hne
      exact h.2 (by omega) hqs
    simp [network_session.deliver, async_write_front, hqs, h0]
  | cons a rest =>
    simpa [network_session.deliver, hqs] using h.1

theorem flight_write_next (s : network_session) (hpos : 0 < s.writes_in_flight)
    (h : s.writes_in_flight ≤ 1 ∧ (s.writes_in_flight = 1 → s._write_queries ≠ [])) :
    ({ s with writes_in_flight := s.writes_in_flight - 1 }).write_next.writes_in_flight ≤ 1 ∧
      (({ s with writes_in_flight := s.writes_in_flight - 1 }).write_next.writes_in_flight = 1 →
        ({ s with writes_in_flight := s.writes_in_flight - 1 }).write_next._write_queries
          ≠ []) := by
  have h0 : s.writes_in_flight - 1 = 0 := by omega
  cases ht : s._write_queries.tail with
  | nil => simp [network_session.write_next, ht, h0]
  | cons a rest => simp [network_session.write_next, async_write_front, ht, h0]

theorem flight_run (calls : List write_call) (s t : network_session)
    (h : s.writes_in_flight ≤ 1 ∧ (s.writes_in_flight = 1 → s._write_queries ≠ []))
    (hr : write_call_run s calls = some t) :
    t.writes_in_flight ≤ 1 ∧ (t.writes_in_flight = 1 → t._write_queries ≠ []) := by
  induction calls generalizing s with
  | nil =>
    simp only [write_call_run, Option.some.injEq] at hr
    subst hr
    exact h
  | cons c cs ih =>
    simp only [write_call_run] at hr
    cases hs : write_call_step s c with
    | none => rw [hs] at hr; exact absurd hr (by simp)
    | some u =>
      rw [hs] at hr
      simp only [Option.some_bind] at hr
      apply ih u _ hr
      cases c with
      | deliver q =>
        simp only [write_call_step, Option.some.injEq] at hs
        subst hs
        exact flight_deliver q s h
      | completed error =>
        simp only [write_call_step] at hs
        split at hs
        · rename_i hpos
          cases error
          · simp only [Bool.not_false, if_true, Option.some.injEq] at hs
            subst hs
            exact flight_write_next s hpos h
          · simp only [Bool.not_true, Bool.false_eq_true, if_false, Option.some.injEq] at hs
            subst hs
            simp only
            constructor
            · omega
            · intro h1; omega
        · exact absurd hs (by simp)

/-- C15: in every state a freshly constructed session reaches by calls of
`network_session::deliver` and write completions, with or without error, at
most one write has been started and not yet completed; the same holds of
every session in every reachable state of the server. -/
theorem C15_at_most_one_write_in_flight (buf : List Nat) (calls : List write_call)
    (s : network_session) (h : write_call_run (network_session.fresh buf) calls = some s) :
    s.writes_in_flight ≤ 1 ∧
    (∀ w, Reachable w → ∀ i, (w.sessions i).writes_in_flight ≤ 1) := by
  refine ⟨(flight_run calls _ s ⟨Nat.zero_le _, fun h1 => ?_⟩ h).1, ?_⟩
  · simp [network_session.fresh] at h1
  · intro w hw i
    exact (reachable_ok hw).2 i |>.2.2.2.2.2.1

/-- Witness of C15: a delivery, a failed write, and another delivery on a
fresh session: no second write is started. -/
theorem C15_at_most_one_write_in_flight_witness :
    write_call_run (network_session.fresh [])
      [write_call.deliver (network_query.mk [32, 32, 32, 49, 97] 1),
        write_call.completed true,
        write_call.deliver (network_query.mk [32, 32, 32, 49, 98] 1)] =
      some (network_session.mk (network_query.mk [] 0)
        [network_query.mk [32, 32, 32, 49, 97] 1, network_query.mk [32, 32, 32, 49, 98] 1]
        false none 0 [network_query.mk [32, 32, 32, 49, 97] 1]) ∧
    (network_session.mk (network_query.mk [] 0)
        [network_query.mk [32, 32, 32, 49, 97] 1, network_query.mk [32, 32, 32, 49, 98] 1]
        false none 0 [network_query.mk [32, 32, 32, 49, 97] 1]).writes_in_flight ≤ 1 :=
  ⟨rfl, (C15_at_most_one_write_in_flight []
      [write_call.deliver (network_query.mk [32, 32, 32, 49, 97] 1),
        write_call.completed true,
        write_call.deliver (network_query.mk [32, 32, 32, 49, 98] 1)] _ rfl).1⟩

theorem codec_run_bound (calls : List codec_call) (q : network_query)
    (h : q._body_length ≤ max_body_length) :
    (codec_run q calls)._body_length ≤ max_body_length := by
  induction calls generalizing q with
  | nil => exact h
  | cons c cs ih =>
    simp only [codec_run]
    apply ih
    cases c with
    | body_length n =>
      simp only [codec_step]
      unfold network_query.set_body_length
      simp only
      split
      · exact le_refl _
      · rename_i hle
        exact Nat.not_lt.mp hle
    | decode_header => exact (decode_header_result q).2.1
    | encode_header => exact h
    | store off bytes => exact h

/-- C20: after the constructor and any sequence of `body_length(n)`,
`decode_header()`, `encode_header()` calls and stores into the buffer,
`body_length() ≤ 512` and `length() ≤ 516`; and in every reachable state of
the server every `_read_query` and every message in the history, in an
outbound queue or handed to a write has a 516-byte buffer that holds its
`length()` bytes, and an outstanding body read stays inside the buffer. -/
theorem C20_body_fits_buffer (buf : List Nat) (calls : List codec_call) :
    (codec_run (network_query.mk buf 0) calls).body_length ≤ 512 ∧
    (codec_run (network_query.mk buf 0) calls).length ≤ 516 ∧
    (∀ w, Reachable w → ∀ i,
      (w.sessions i)._read_query._data.length = 516 ∧
      (w.sessions i)._read_query.body_length ≤ 512 ∧
      (w.sessions i)._read_query.length ≤ (w.sessions i)._read_query._data.length ∧
      (∀ n, (w.sessions i).read_pending = some (read_op.body n) →
        n = (w.sessions i)._read_query.body_length ∧
        header_length + n ≤ (w.sessions i)._read_query._data.length) ∧
      (∀ m ∈ (w.sessions i)._write_queries, m.length ≤ 516 ∧ m._data.length = 516) ∧
      (∀ m ∈ (w.sessions i).writes_started, m.length ≤ 516 ∧ m._data.length = 516)) ∧
    (∀ w, Reachable w → ∀ m ∈ w._channel._recent_queries,
      m.length ≤ 516 ∧ m._data.length = 516) := by
  have hb := codec_run_bound calls (network_query.mk buf 0) (Nat.zero_le _)
  simp only [max_body_length] at hb
  have hq : ∀ m, query_ok m → m.length ≤ 516 ∧ m._data.length = 516 := by
    intro m hm
    obtain ⟨h1, h2, -⟩ := hm
    simp only [network_query.length, header_length, max_body_length, data_size] at *
    exact ⟨by omega, h1⟩
  refine ⟨hb, ?_, ?_, ?_⟩
  · simp only [network_query.length, header_length]
    omega
  · intro w hw i
    obtain ⟨h1, h2, h3, h4, h5, -, -⟩ := (reachable_ok hw).2 i
    simp only [max_body_length, data_size, header_length] at h1 h2
    refine ⟨h1, h2, ?_, ?_, fun m hm => hq m (h4 m hm), fun m hm => hq m (h5 m hm)⟩
    · show 4 + (w.sessions i)._read_query._body_length ≤ _
      rw [h1]
      omega
    · intro n hn
      obtain ⟨g1, -⟩ := h3 n hn
      refine ⟨g1, ?_⟩
      show 4 + n ≤ _
      rw [h1]
      omega
  · intro w hw m hm
    exact hq m ((reachable_ok hw).1 m hm)

/-- C11 as stated fails: session 1 is started and reads the header `"1   "`
(left-justified, accepted by `decode_header()` with length 1) and the body
`"a"`; the message is relayed as read, so the history and the queue of
session 1 hold a message whose header bytes are `"1   "`, not `"   1"`. -/
theorem C11_counterexample :
    (run (seeder_server.initial (fun _ => List.replicate 516 0))
      [io_event.accepted 1, io_event.read_completed 1 false [49, 32, 32, 32],
        io_event.read_completed 1 false [97]]).map
      (fun u => (u._channel._recent_queries.map
          (fun m => (m._data.take 4, m._body_length, sprintf_4d m._body_length)),
        (u.sessions 1)._write_queries.map
          (fun m => (m._data.take 4, m._body_length, sprintf_4d m._body_length)))) =
      some ([([49, 32, 32, 32], 1, [32, 32, 32, 49])],
        [([49, 32, 32, 32], 1, [32, 32, 32, 49])]) := by
  rfl

/-- C11 (amended): in every reachable state, every message held in the
channel's history or in a session's outbound queue has a body length of at
most 512 and 4 header bytes that `decode_header()` accepts and parses to
exactly that body length (decoding returns `true` and leaves the message as
it is). -/
theorem C11_relayed_header_decodes_to_length (w : seeder_server) (hw : Reachable w) :
    (∀ m ∈ w._channel._recent_queries,
      m.body_length ≤ 512 ∧ m.decode_header = (true, m)) ∧
    (∀ i, ∀ m ∈ (w.sessions i)._write_queries,
      m.body_length ≤ 512 ∧ m.decode_header = (true, m)) := by
  have hok := reachable_ok hw
  refine ⟨fun m hm => ?_, fun i m hm => ?_⟩
  · obtain ⟨-, h2, h3⟩ := hok.1 m hm
    exact ⟨h2, h3⟩
  · obtain ⟨-, h2, h3⟩ := (hok.2 i).2.2.2.1 m hm
    exact ⟨h2, h3⟩

/-- Witness of the amended C11: session 1 of a constructed server is started
and reads the frame `"1   a"`. -/
theorem C11_relayed_header_decodes_to_length_witness :
    Reachable (network_session.handle_read_body false 1 (read_done 1 4 [97]
        (network_session.handle_read_header false 1 (read_done 1 0 [49, 32, 32, 32]
          (network_session.start 1
            (seeder_server.initial (fun _ => List.replicate 516 0))))))) ∧
    ((∀ m ∈ (network_session.handle_read_body false 1 (read_done 1 4 [97]
        (network_session.handle_read_header false 1 (read_done 1 0 [49, 32, 32, 32]
          (network_session.start 1
            (seeder_server.initial (fun _ => List.replicate 516 0)))))))._channel._recent_queries,
      m.body_length ≤ 512 ∧ m.decode_header = (true, m)) ∧
    (∀ i, ∀ m ∈ ((network_session.handle_read_body false 1 (read_done 1 4 [97]
        (network_session.handle_read_header false 1 (read_done 1 0 [49, 32, 32, 32]
          (network_session.start 1
            (seeder_server.initial (fun _ => List.replicate 516 0))))))).sessions i)._write_queries,
      m.body_length ≤ 512 ∧ m.decode_header = (true, m))) :=
  ⟨(Reachable.step (io_event.read_completed 1 false [97])
      (Reachable.step (io_event.read_completed 1 false [49, 32, 32, 32])
        (Reachable.step (io_event.accepted 1)
          (Reachable.init _ (fun _ => List.length_replicate _ _)) rfl) rfl) rfl),
   C11_relayed_header_decodes_to_length _
    (Reachable.step (io_event.read_completed 1 false [97])
      (Reachable.step (io_event.read_completed 1 false [49, 32, 32, 32])
        (Reachable.step (io_event.accepted 1)
          (Reachable.init _ (fun _ => List.length_replicate _ _)) rfl) rfl) rfl)⟩

end Seeder
